import Mathlib

/-!
Shallow embedding of `CacheIt.hpp` (`template<typename T, typename Category,
typename Categorizer> class CacheIt`).

The cache stores non-owning pointers `T*`.  A stored pointer is modelled by
`Ent`: the field `ptr` is the pointer identity (two distinct objects may carry
the same `id`) and the field `id` models the `e->id` member read by the
identifier-mode operations.  `std::unordered_map` is modelled by an
association list with the map's insert / erase / find behaviour; the
cache's own operations keep its keys unique.  `std::vector` is a `List`,
`nullptr` slots of the dense table are `none`, and out-of-range reads use
`getD` defaults (the C++ code only indexes in range in the states it reaches).
Each mode's operations are translated function by function from the source.
-/

set_option maxHeartbeats 1000000
set_option linter.unusedSectionVars false
set_option linter.unnecessarySimpa false

/-- An externally owned entity: `ptr` models the pointer identity of `T*`,
`id` the numeric identifier `e->id` used by the identifier mode. -/
structure Ent where
  ptr : Nat
  id : Nat
deriving DecidableEq, Repr

instance : Inhabited Ent := ⟨⟨0, 0⟩⟩

section AListOps

variable {κ : Type} [DecidableEq κ]

/-- `unordered_map::find`: the value stored for key `k`, if any. -/
def lookupA (m : List (κ × Nat)) (k : κ) : Option Nat :=
  match m with
  | [] => none
  | q :: t => if q.1 = k then some q.2 else lookupA t k

/-- `unordered_map::count(k) != 0`. -/
def containsA (m : List (κ × Nat)) (k : κ) : Bool :=
  (lookupA m k).isSome

/-- `m[k] = v`: overwrite the entry for `k` when present, append it otherwise. -/
def insertA (m : List (κ × Nat)) (k : κ) (v : Nat) : List (κ × Nat) :=
  match m with
  | [] => [(k, v)]
  | q :: t => if q.1 = k then (k, v) :: t else q :: insertA t k v

/-- `m.erase(k)`: drop the entry for `k` (the map holds at most one). -/
def eraseA (m : List (κ × Nat)) (k : κ) : List (κ × Nat) :=
  match m with
  | [] => []
  | q :: t => if q.1 = k then t else q :: eraseA t k

/-- The keys of the map, in entry order. -/
def keysA (m : List (κ × Nat)) : List κ :=
  m.map Prod.fst

end AListOps

/-! ### Identifier mode -/

/-- The identifier-mode state: `table_`, `active_ids_`, `id_to_index_`. -/
structure IdState where
  table : List (Option Ent)
  active_ids : List Nat
  id_to_index : List (Nat × Nat)
deriving DecidableEq, Repr

/-- The state at construction: all three containers empty. -/
def IdState.empty : IdState := ⟨[], [], []⟩

/-- `if (id >= table_.size()) table_.resize(id + 1, nullptr);` -/
def growTable (t : List (Option Ent)) (id : Nat) : List (Option Ent) :=
  if id < t.length then t else t ++ List.replicate (id + 1 - t.length) none

/-- `table_[i]`; reads out of range yield the empty marker. -/
def tableGet (t : List (Option Ent)) (i : Nat) : Option Ent :=
  t.getD i none

/-- Loop body of the ID-mode `update`: grow the table, store the reference,
append the identifier to the active list and record its position
(`local_idx_map[id] = pos`). -/
def rebuildStep (s : IdState) (e : Ent) : IdState :=
  { table := (growTable s.table e.id).set e.id (some e)
    active_ids := s.active_ids ++ [e.id]
    id_to_index := insertA s.id_to_index e.id s.active_ids.length }

/-- ID-mode `update`: builds fresh local structures from the snapshot and
swaps them in, discarding the previous state entirely. -/
def updateId (_s : IdState) (es : List Ent) : IdState :=
  es.foldl rebuildStep IdState.empty

/-- ID-mode `add`: a no-op when the identifier is already mapped, otherwise
grow, store, append, record. -/
def addId (s : IdState) (e : Ent) : IdState :=
  if containsA s.id_to_index e.id then s
  else
    { table := (growTable s.table e.id).set e.id (some e)
      active_ids := s.active_ids ++ [e.id]
      id_to_index := insertA s.id_to_index e.id s.active_ids.length }

/-- ID-mode `remove`: a no-op when the identifier is not mapped; otherwise
swap the active-list entry with the last one, pop, repoint the moved
identifier, erase the removed one, and null the table slot. -/
def removeId (s : IdState) (e : Ent) : IdState :=
  match lookupA s.id_to_index e.id with
  | none => s
  | some idx =>
    let last := s.active_ids.length - 1
    let back_id := s.active_ids.getD last 0
    { table := if e.id < s.table.length then s.table.set e.id none else s.table
      active_ids :=
        ((s.active_ids.set idx back_id).set last (s.active_ids.getD idx 0)).dropLast
      id_to_index := eraseA (insertA s.id_to_index back_id idx) e.id }

/-- ID-mode `clear`: empty all three containers. -/
def clearId (_s : IdState) : IdState := IdState.empty

/-- ID-mode `size`: `active_ids_.size()`. -/
def sizeId (s : IdState) : Nat := s.active_ids.length

/-- ID-mode `get_all`: walk `active_ids_`, keeping `table_[id]` only when
`id < table_.size() && table_[id]`. -/
def getAllId (s : IdState) : List Ent :=
  s.active_ids.filterMap fun i =>
    if i < s.table.length then tableGet s.table i else none

/-- ID-mode `for_each_all`: visit every non-null slot of `table_` in array
order; the returned list is the visit sequence. -/
def forEachAllId (s : IdState) : List Ent :=
  s.table.filterMap fun o => o

/-! ### Grouping mode -/

/-- The grouping-mode state: `categories_`, `buckets_`, `category_to_index_`. -/
structure GState (κ : Type) where
  categories : List κ
  buckets : List (List Ent)
  category_to_index : List (κ × Nat)
deriving DecidableEq, Repr

/-- The state at construction: all three containers empty. -/
def GState.empty (κ : Type) : GState κ := ⟨[], [], []⟩

/-- `buckets_[p].push_back(e)`. -/
def pushBucket (bs : List (List Ent)) (p : Nat) (e : Ent) : List (List Ent) :=
  bs.set p (bs.getD p [] ++ [e])

section GroupingOps

variable {κ : Type} [DecidableEq κ]

/-- Loop body of the first pass of the grouping-mode `update`: skip the
category when it is already indexed, otherwise record its position and append
it (`local_index[c] = local_categories.size(); local_categories.push_back(c);`). -/
def discStep (f : Ent → κ) (acc : List κ × List (κ × Nat)) (e : Ent) :
    List κ × List (κ × Nat) :=
  if containsA acc.2 (f e) then acc
  else (acc.1 ++ [f e], insertA acc.2 (f e) acc.1.length)

/-- First pass of the grouping-mode `update`: discover the distinct categories
in order of first appearance together with their position index. -/
def discover (f : Ent → κ) (es : List Ent) : List κ × List (κ × Nat) :=
  es.foldl (discStep f) ([], [])

/-- Loop body of the second pass of the grouping-mode `update`:
`local_buckets[local_index[categorizer_(e)]].push_back(e);`. -/
def fillStep (f : Ent → κ) (m : List (κ × Nat)) (bs : List (List Ent)) (e : Ent) :
    List (List Ent) :=
  pushBucket bs ((lookupA m (f e)).getD 0) e

/-- Grouping-mode `update`: discover the categories, allocate one bucket per
category, then push every entity into the bucket of its category. -/
def updateG (f : Ent → κ) (_s : GState κ) (es : List Ent) : GState κ :=
  let d := discover f es
  { categories := d.1
    buckets := es.foldl (fillStep f d.2) (List.replicate d.1.length [])
    category_to_index := d.2 }

/-- Grouping-mode `add`: register the category if it is new (appending an empty
bucket), then push the entity into its category's bucket. -/
def addG (f : Ent → κ) (s : GState κ) (e : Ent) : GState κ :=
  let c := f e
  let s1 := if containsA s.category_to_index c then s
    else { categories := s.categories ++ [c]
           buckets := s.buckets ++ [[]]
           category_to_index := insertA s.category_to_index c s.categories.length }
  { s1 with buckets := pushBucket s1.buckets ((lookupA s1.category_to_index c).getD 0) e }

/-- `std::find` for the entity, `iter_swap` with the last element, `pop_back`;
the popped element is the one that was found, so the net effect is writing the
last element over position `p` and dropping the last slot. -/
def removeSwap (l : List Ent) (e : Ent) : List Ent :=
  match l.findIdx? (fun x => x == e) with
  | none => l
  | some p => (l.set p (l.getD (l.length - 1) e)).dropLast

/-- Grouping-mode `remove`: a no-op when the entity's category is unknown;
otherwise swap-remove the entity's first occurrence from that bucket. -/
def removeG (f : Ent → κ) (s : GState κ) (e : Ent) : GState κ :=
  match lookupA s.category_to_index (f e) with
  | none => s
  | some p => { s with buckets := s.buckets.set p (removeSwap (s.buckets.getD p []) e) }

/-- Grouping-mode `clear`: empty all three containers. -/
def clearG (_s : GState κ) : GState κ := ⟨[], [], []⟩

/-- Grouping-mode `size`: the sum of all bucket sizes. -/
def sizeG (s : GState κ) : Nat := (s.buckets.map List.length).sum

/-- Grouping-mode `get_all`: all bucket contents concatenated in bucket order. -/
def getAllG (s : GState κ) : List Ent := s.buckets.flatten

/-- Grouping-mode `for_each`: copy the bucket matching `cat` under the lock
(nothing when the category is unknown) and visit the copy; the returned list
is the visit sequence. -/
def forEachCat (s : GState κ) (cat : κ) : List Ent :=
  match lookupA s.category_to_index cat with
  | none => []
  | some p => s.buckets.getD p []

/-- Grouping-mode `for_each_all`: visit every bucket's elements in
bucket-then-element order. -/
def forEachAllG (s : GState κ) : List Ent := s.buckets.flatten

end GroupingOps

/-! ### Invariants -/

/-- The identifier-mode invariant as the specification states it: every active
identifier has a live table slot and is mapped to its index in `active_ids`,
and conversely every mapped identifier appears in `active_ids` at its mapped
index with a live table slot. -/
def InvId (s : IdState) : Prop :=
  (∀ i ∈ s.active_ids,
      (tableGet s.table i).isSome ∧
      lookupA s.id_to_index i = some (s.active_ids.indexOf i)) ∧
  (∀ q ∈ s.id_to_index,
      s.active_ids[q.2]? = some q.1 ∧ (tableGet s.table q.1).isSome)

instance (s : IdState) : Decidable (InvId s) := by
  unfold InvId; exact inferInstance

/-- The strengthened identifier-mode state predicate: the claimed invariant
together with duplicate-freedom of the active list and of the map's keys. -/
def GoodId (s : IdState) : Prop :=
  s.active_ids.Nodup ∧ (keysA s.id_to_index).Nodup ∧ InvId s

instance (s : IdState) : Decidable (GoodId s) := by
  unfold GoodId; exact inferInstance

/-- Every live table slot's index is an active identifier. -/
def LiveA (s : IdState) : Prop :=
  ∀ i ∈ List.range s.table.length, (tableGet s.table i).isSome → i ∈ s.active_ids

instance (s : IdState) : Decidable (LiveA s) := by
  unfold LiveA; exact inferInstance

/-- Every live table slot's identifier is a key of the position map. -/
def LiveMapped (s : IdState) : Prop :=
  ∀ i, (tableGet s.table i).isSome → containsA s.id_to_index i

/-- The grouping-mode structural invariant: as many buckets as categories, the
category list duplicate-free, and the position map holding exactly the listed
categories, each sent to its position. -/
def InvG {κ : Type} [DecidableEq κ] (s : GState κ) : Prop :=
  s.categories.length = s.buckets.length ∧
  s.categories.Nodup ∧
  (∀ q ∈ s.category_to_index, s.categories[q.2]? = some q.1) ∧
  (∀ c ∈ s.categories, lookupA s.category_to_index c = some (s.categories.indexOf c))

instance {κ : Type} [DecidableEq κ] (s : GState κ) : Decidable (InvG s) := by
  unfold InvG; exact inferInstance

/-- Identifier-mode states reachable from the empty state when every `update`
snapshot has pairwise-distinct identifiers. -/
inductive ReachD : IdState → Prop where
  | empty : ReachD IdState.empty
  | update {s es} : ReachD s → (es.map Ent.id).Nodup → ReachD (updateId s es)
  | add {s e} : ReachD s → ReachD (addId s e)
  | remove {s e} : ReachD s → ReachD (removeId s e)
  | clear {s} : ReachD s → ReachD (clearId s)

/-- Identifier-mode states reachable from the empty state by arbitrary
operations, duplicate-carrying `update` snapshots included. -/
inductive Reach : IdState → Prop where
  | empty : Reach IdState.empty
  | update {s es} : Reach s → Reach (updateId s es)
  | add {s e} : Reach s → Reach (addId s e)
  | remove {s e} : Reach s → Reach (removeId s e)
  | clear {s} : Reach s → Reach (clearId s)

/-! ### Association-list lemmas -/

section AListLemmas

variable {κ : Type} [DecidableEq κ]

theorem lookupA_insertA_self (m : List (κ × Nat)) (k : κ) (v : Nat) :
    lookupA (insertA m k v) k = some v := by
  induction m with
  | nil => simp [insertA, lookupA]
  | cons q t ih =>
    by_cases h : q.1 = k
    · simp [insertA, lookupA, h]
    · simp [insertA, lookupA, h, ih]

theorem lookupA_insertA_ne (m : List (κ × Nat)) {k k' : κ} (v : Nat) (h : k' ≠ k) :
    lookupA (insertA m k v) k' = lookupA m k' := by
  induction m with
  | nil => simp [insertA, lookupA, Ne.symm h]
  | cons q t ih =>
    by_cases hq : q.1 = k
    · subst hq
      simp [insertA, lookupA, Ne.symm h]
    · simp only [insertA, if_neg hq, lookupA]
      by_cases hq' : q.1 = k' <;> simp [hq', ih]

theorem lookupA_eraseA_ne (m : List (κ × Nat)) {k k' : κ} (h : k' ≠ k) :
    lookupA (eraseA m k) k' = lookupA m k' := by
  induction m with
  | nil => simp [eraseA]
  | cons q t ih =>
    by_cases hq : q.1 = k
    · subst hq
      simp [eraseA, lookupA, Ne.symm h]
    · simp only [eraseA, if_neg hq, lookupA]
      by_cases hq' : q.1 = k' <;> simp [hq', ih]

theorem lookupA_eq_none_of_not_mem_keysA {m : List (κ × Nat)} {k : κ}
    (h : k ∉ keysA m) : lookupA m k = none := by
  induction m with
  | nil => rfl
  | cons q t ih =>
    simp only [keysA, List.map_cons, List.mem_cons, not_or] at h
    simp [lookupA, Ne.symm h.1, ih (by simpa [keysA] using h.2)]

theorem mem_keysA_of_lookupA {m : List (κ × Nat)} {k : κ} {v : Nat}
    (h : lookupA m k = some v) : k ∈ keysA m := by
  induction m with
  | nil => simp [lookupA] at h
  | cons q t ih =>
    by_cases hq : q.1 = k
    · simp [keysA, hq]
    · simp only [lookupA, if_neg hq] at h
      simp [keysA, List.mem_cons] at ih ⊢
      exact Or.inr (ih h)

theorem lookupA_eraseA_self {m : List (κ × Nat)} (hn : (keysA m).Nodup) (k : κ) :
    lookupA (eraseA m k) k = none := by
  induction m with
  | nil => rfl
  | cons q t ih =>
    simp only [keysA, List.map_cons, List.nodup_cons] at hn
    by_cases hq : q.1 = k
    · subst hq
      simp only [eraseA, if_pos rfl]
      exact lookupA_eq_none_of_not_mem_keysA hn.1
    · simp [eraseA, hq, lookupA, ih hn.2]

theorem mem_of_lookupA {m : List (κ × Nat)} {k : κ} {v : Nat}
    (h : lookupA m k = some v) : (k, v) ∈ m := by
  induction m with
  | nil => simp [lookupA] at h
  | cons q t ih =>
    by_cases hq : q.1 = k
    · simp only [lookupA, if_pos hq] at h
      cases h
      subst hq
      exact List.mem_cons_self q t
    · simp only [lookupA, if_neg hq] at h
      exact List.mem_cons_of_mem _ (ih h)

theorem mem_insertA {m : List (κ × Nat)} {k : κ} {v : Nat} {q : κ × Nat}
    (h : q ∈ insertA m k v) : q = (k, v) ∨ q ∈ m := by
  induction m with
  | nil => simpa [insertA] using h
  | cons r t ih =>
    by_cases hr : r.1 = k
    · simp only [insertA, if_pos hr, List.mem_cons] at h
      rcases h with h | h
      · exact Or.inl h
      · exact Or.inr (List.mem_cons_of_mem _ h)
    · simp only [insertA, if_neg hr, List.mem_cons] at h
      rcases h with h | h
      · exact Or.inr (h ▸ List.mem_cons_self r t)
      · rcases ih h with h' | h'
        · exact Or.inl h'
        · exact Or.inr (List.mem_cons_of_mem _ h')

theorem lookupA_of_mem {m : List (κ × Nat)} (hn : (keysA m).Nodup) {q : κ × Nat}
    (h : q ∈ m) : lookupA m q.1 = some q.2 := by
  induction m with
  | nil => simp at h
  | cons r t ih =>
    simp only [keysA, List.map_cons, List.nodup_cons] at hn
    rcases List.mem_cons.1 h with h | h
    · subst h; simp [lookupA]
    · have hne : r.1 ≠ q.1 := by
        intro heq
        exact hn.1 (heq ▸ (List.mem_map_of_mem Prod.fst h))
      simp [lookupA, hne, ih hn.2 h]

theorem insertA_of_lookup_none {m : List (κ × Nat)} {k : κ} (v : Nat)
    (h : lookupA m k = none) : insertA m k v = m ++ [(k, v)] := by
  induction m with
  | nil => rfl
  | cons q t ih =>
    by_cases hq : q.1 = k
    · simp [lookupA, hq] at h
    · simp only [lookupA, if_neg hq] at h
      simp [insertA, hq, ih h]

theorem insertA_append_self {m : List (κ × Nat)} {k : κ} {v v' : Nat}
    (h : lookupA m k = none) : insertA (m ++ [(k, v)]) k v' = m ++ [(k, v')] := by
  induction m with
  | nil => simp [insertA]
  | cons q t ih =>
    by_cases hq : q.1 = k
    · simp [lookupA, hq] at h
    · simp only [lookupA, if_neg hq] at h
      simp [insertA, hq, ih h]

theorem eraseA_append_self {m : List (κ × Nat)} {k : κ} {v : Nat}
    (h : lookupA m k = none) : eraseA (m ++ [(k, v)]) k = m := by
  induction m with
  | nil => simp [eraseA]
  | cons q t ih =>
    by_cases hq : q.1 = k
    · simp [lookupA, hq] at h
    · simp only [lookupA, if_neg hq] at h
      simp [eraseA, hq, ih h]

theorem keysA_insertA_of_contains {m : List (κ × Nat)} {k : κ} (v : Nat)
    (h : containsA m k = true) : keysA (insertA m k v) = keysA m := by
  induction m with
  | nil => simp [containsA, lookupA] at h
  | cons q t ih =>
    by_cases hq : q.1 = k
    · simp [insertA, hq, keysA]
    · simp only [containsA, lookupA, if_neg hq] at h
      simp [insertA, hq, keysA, List.map_cons] at ih ⊢
      exact ih h

theorem lookupA_none_of_contains_false {m : List (κ × Nat)} {k : κ}
    (h : containsA m k = false) : lookupA m k = none := by
  unfold containsA at h
  cases hl : lookupA m k with
  | none => rfl
  | some v => rw [hl] at h; simp at h

theorem keysA_insertA_of_not_contains {m : List (κ × Nat)} {k : κ} (v : Nat)
    (h : containsA m k = false) : keysA (insertA m k v) = keysA m ++ [k] := by
  rw [insertA_of_lookup_none v (lookupA_none_of_contains_false h)]
  simp [keysA]

theorem keysA_insertA_nodup {m : List (κ × Nat)} {k : κ} (v : Nat)
    (hn : (keysA m).Nodup) : (keysA (insertA m k v)).Nodup := by
  cases hc : containsA m k
  · rw [keysA_insertA_of_not_contains v hc]
    have : k ∉ keysA m := by
      intro hk
      rcases List.mem_map.1 hk with ⟨q, hq, hq1⟩
      have := lookupA_of_mem hn hq
      rw [hq1] at this
      simp [containsA, this] at hc
    simp [List.nodup_append, this, hn]
  · rw [keysA_insertA_of_contains v hc]
    exact hn

theorem keysA_eraseA_sublist (m : List (κ × Nat)) (k : κ) :
    (keysA (eraseA m k)).Sublist (keysA m) := by
  induction m with
  | nil => simp [eraseA]
  | cons q t ih =>
    by_cases hq : q.1 = k
    · simp only [eraseA, if_pos hq, keysA, List.map_cons]
      exact (List.sublist_cons_self _ _)
    · simp only [eraseA, if_neg hq, keysA, List.map_cons]
      exact ih.cons₂ _

theorem keysA_eraseA_nodup {m : List (κ × Nat)} (k : κ)
    (hn : (keysA m).Nodup) : (keysA (eraseA m k)).Nodup :=
  hn.sublist (keysA_eraseA_sublist m k)

end AListLemmas

/-! ### Generic list lemmas for the swap-and-pop pattern -/

section SwapPop

variable {α : Type} [DecidableEq α]

theorem set_last_dropLast (l : List α) (v : α) :
    (l.set (l.length - 1) v).dropLast = l.dropLast := by
  apply List.ext_getElem?
  intro n
  rw [List.getElem?_dropLast, List.getElem?_dropLast, List.length_set]
  by_cases h : n < l.length - 1
  · rw [if_pos h, if_pos h, List.getElem?_set_ne (by omega)]
  · rw [if_neg h, if_neg h]

theorem set_last_dropLast' (l : List α) (n : Nat) (v : α) (h : n = l.length - 1) :
    (l.set n v).dropLast = l.dropLast := by
  subst h; exact set_last_dropLast l v

theorem dropLast_set (l : List α) {i : Nat} (v : α) (h : i < l.length - 1) :
    (l.set i v).dropLast = l.dropLast.set i v := by
  apply List.ext_getElem?
  intro n
  by_cases hin : i = n
  · subst hin
    rw [List.getElem?_dropLast, List.length_set, if_pos h,
      List.getElem?_set_self (by omega),
      List.getElem?_set_self (by rw [List.length_dropLast]; omega)]
  · rw [List.getElem?_dropLast, List.length_set, List.getElem?_set_ne hin,
      List.getElem?_set_ne hin, List.getElem?_dropLast]

theorem set_getD_self (l : List α) (p : Nat) (d : α) :
    l.set p (l.getD p d) = l := by
  by_cases h : p < l.length
  · apply List.ext_getElem?
    intro n
    by_cases hn : p = n
    · subst hn
      rw [List.getElem?_set_self h, List.getD_eq_getElem?_getD,
        List.getElem?_eq_getElem h]
      rfl
    · rw [List.getElem?_set_ne hn]
  · exact List.set_eq_of_length_le (by omega)

theorem nodup_set_of_not_mem {l : List α} (hl : l.Nodup) {v : α} (hv : v ∉ l) (i : Nat) :
    (l.set i v).Nodup := by
  induction l generalizing i with
  | nil => simp
  | cons a t ih =>
    rcases i with _ | i
    · simp only [List.set_cons_zero, List.nodup_cons]
      exact ⟨fun hvt => hv (List.mem_cons_of_mem _ hvt), (List.nodup_cons.1 hl).2⟩
    · simp only [List.set_cons_succ, List.nodup_cons]
      refine ⟨fun hmem => ?_, ih (List.nodup_cons.1 hl).2
        (fun ht => hv (List.mem_cons_of_mem _ ht)) i⟩
      rcases List.mem_or_eq_of_mem_set hmem with hmem | hav
      · exact (List.nodup_cons.1 hl).1 hmem
      · exact hv (hav ▸ List.mem_cons_self a t)

theorem indexOf_eq_of_getElem? {l : List α} (hl : l.Nodup) {p : Nat} {x : α}
    (h : l[p]? = some x) : List.indexOf x l = p := by
  rcases List.getElem?_eq_some_iff.1 h with ⟨hp, rfl⟩
  exact List.indexOf_getElem hl p hp

end SwapPop

/-! ### Dense-table lemmas -/

theorem length_growTable_lt (t : List (Option Ent)) (id : Nat) :
    id < (growTable t id).length := by
  unfold growTable
  by_cases h : id < t.length
  · simpa [h]
  · simp only [if_neg h, List.length_append, List.length_replicate]
    omega

theorem length_growTable_le (t : List (Option Ent)) (id : Nat) :
    t.length ≤ (growTable t id).length := by
  unfold growTable
  by_cases h : id < t.length <;> simp [h]

theorem tableGet_append_replicate (t : List (Option Ent)) (m k : Nat) :
    tableGet (t ++ List.replicate m none) k = tableGet t k := by
  unfold tableGet
  rw [List.getD_eq_getElem?_getD, List.getD_eq_getElem?_getD, List.getElem?_append]
  by_cases h : k < t.length
  · rw [if_pos h]
  · rw [if_neg h, List.getElem?_replicate, List.getElem?_eq_none (by omega)]
    by_cases h2 : k - t.length < m <;> simp [h2]

theorem tableGet_growTable (t : List (Option Ent)) (id k : Nat) :
    tableGet (growTable t id) k = tableGet t k := by
  unfold growTable
  by_cases h : id < t.length
  · rw [if_pos h]
  · rw [if_neg h, tableGet_append_replicate]

theorem tableGet_set_self (t : List (Option Ent)) {i : Nat} (h : i < t.length)
    (v : Option Ent) : tableGet (t.set i v) i = v := by
  unfold tableGet
  rw [List.getD_eq_getElem?_getD, List.getElem?_set_self h]
  rfl

theorem tableGet_set_ne (t : List (Option Ent)) {i k : Nat} (h : i ≠ k)
    (v : Option Ent) : tableGet (t.set i v) k = tableGet t k := by
  unfold tableGet
  rw [List.getD_eq_getElem?_getD, List.getD_eq_getElem?_getD, List.getElem?_set_ne h]

theorem tableGet_store (t : List (Option Ent)) (id : Nat) (e : Ent) (k : Nat) :
    tableGet ((growTable t id).set id (some e)) k =
      if k = id then some e else tableGet t k := by
  by_cases h : k = id
  · subst h
    rw [if_pos rfl, tableGet_set_self _ (length_growTable_lt t k)]
  · rw [if_neg h, tableGet_set_ne _ (Ne.symm h), tableGet_growTable]

theorem tableGet_eq_none_of_le {t : List (Option Ent)} {k : Nat} (h : t.length ≤ k) :
    tableGet t k = none := by
  unfold tableGet
  rw [List.getD_eq_getElem?_getD, List.getElem?_eq_none h]
  rfl

theorem tableGet_isSome_lt {t : List (Option Ent)} {k : Nat}
    (h : (tableGet t k).isSome) : k < t.length := by
  by_contra hk
  rw [tableGet_eq_none_of_le (by omega)] at h
  simp at h

theorem tableGet_clear (t : List (Option Ent)) (id k : Nat) :
    tableGet (if id < t.length then t.set id none else t) k =
      if k = id then none else tableGet t k := by
  by_cases hid : id < t.length
  · rw [if_pos hid]
    by_cases h : k = id
    · subst h; rw [if_pos rfl, tableGet_set_self _ hid]
    · rw [if_neg h, tableGet_set_ne _ (Ne.symm h)]
  · rw [if_neg hid]
    by_cases h : k = id
    · subst h; rw [if_pos rfl, tableGet_eq_none_of_le (by omega)]
    · rw [if_neg h]

/-- The bounds guard in `get_all` is redundant with out-of-range reads being
empty, so `get_all` is the filter-map of the table over the active list. -/
theorem getAllId_eq (s : IdState) :
    getAllId s = s.active_ids.filterMap (fun i => tableGet s.table i) := by
  unfold getAllId
  apply List.filterMap_congr
  intro i _
  by_cases h : i < s.table.length
  · rw [if_pos h]
  · rw [if_neg h, tableGet_eq_none_of_le (by omega)]

/-! ### `removeId` component characterizations (in the identifier-present case) -/

theorem removeId_active (s : IdState) (e : Ent) {idx : Nat}
    (h : lookupA s.id_to_index e.id = some idx) :
    (removeId s e).active_ids =
      (s.active_ids.set idx (s.active_ids.getD (s.active_ids.length - 1) 0)).dropLast := by
  simp only [removeId, h]
  exact set_last_dropLast' _ _ _ (by rw [List.length_set])

theorem removeId_table (s : IdState) (e : Ent) {idx : Nat}
    (h : lookupA s.id_to_index e.id = some idx) :
    (removeId s e).table =
      if e.id < s.table.length then s.table.set e.id none else s.table := by
  simp only [removeId, h]

theorem removeId_map (s : IdState) (e : Ent) {idx : Nat}
    (h : lookupA s.id_to_index e.id = some idx) :
    (removeId s e).id_to_index =
      eraseA (insertA s.id_to_index (s.active_ids.getD (s.active_ids.length - 1) 0) idx)
        e.id := by
  simp only [removeId, h]

/-! ### ID-mode rebuild characterizations -/

theorem foldl_rebuild_active (es : List Ent) (s : IdState) :
    (es.foldl rebuildStep s).active_ids = s.active_ids ++ es.map Ent.id := by
  induction es generalizing s with
  | nil => simp
  | cons e t ih =>
    rw [List.foldl_cons, ih]
    simp [rebuildStep, List.append_assoc]

/-- The last entity of the snapshot that carries identifier `k`, if any:
this is the reference that wins the table slot under last-write-wins. -/
def lastWithId (es : List Ent) (k : Nat) : Option Ent :=
  (es.filter (fun e => e.id == k)).getLast?

theorem getLast?_cons_or {α : Type} (a : α) (l : List α) :
    (a :: l).getLast? = l.getLast?.or (some a) := by
  induction l generalizing a with
  | nil => rfl
  | cons b t ih =>
    rw [List.getLast?_cons_cons, ih b, Option.or_assoc, Option.or_some]

theorem lastWithId_cons (e : Ent) (t : List Ent) (k : Nat) :
    lastWithId (e :: t) k =
      if e.id = k then (lastWithId t k).or (some e) else lastWithId t k := by
  unfold lastWithId
  by_cases h : e.id = k
  · rw [if_pos h, List.filter_cons_of_pos (by simpa using h), getLast?_cons_or]
  · rw [if_neg h, List.filter_cons_of_neg (by simpa using h)]

theorem foldl_rebuild_tableGet (es : List Ent) (s : IdState) (k : Nat) :
    tableGet (es.foldl rebuildStep s).table k =
      (lastWithId es k).or (tableGet s.table k) := by
  induction es generalizing s with
  | nil => simp [lastWithId]
  | cons e t ih =>
    rw [List.foldl_cons, ih, lastWithId_cons]
    have hstep : tableGet (rebuildStep s e).table k =
        if k = e.id then some e else tableGet s.table k :=
      tableGet_store s.table e.id e k
    by_cases h : e.id = k
    · rw [if_pos h, hstep, if_pos h.symm, Option.or_assoc, Option.or_some]
    · rw [if_neg h, hstep, if_neg (fun hh => h hh.symm)]

theorem containsA_foldl_rebuild (es : List Ent) (s : IdState) (k : Nat) :
    containsA (es.foldl rebuildStep s).id_to_index k =
      (containsA s.id_to_index k || es.any (fun e => e.id == k)) := by
  induction es generalizing s with
  | nil => simp
  | cons e t ih =>
    rw [List.foldl_cons, ih]
    simp only [rebuildStep, List.any_cons]
    by_cases h : e.id = k
    · subst h
      simp [containsA, lookupA_insertA_self]
    · simp only [containsA, lookupA_insertA_ne _ _ (Ne.symm h)]
      simp [containsA, h, Bool.or_comm, Bool.or_assoc, Bool.or_left_comm]

theorem length_dedup_lt_of_not_nodup {α : Type} [DecidableEq α] {l : List α}
    (h : ¬ l.Nodup) : l.dedup.length < l.length := by
  rcases Nat.lt_or_ge l.dedup.length l.length with hlt | hge
  · exact hlt
  · have hlen : l.dedup.length = l.length :=
      Nat.le_antisymm (List.dedup_sublist l).length_le hge
    have hde : l.dedup = l := (List.dedup_sublist l).eq_of_length hlen
    exact absurd (hde ▸ l.nodup_dedup) h

/-! ### Preservation of the strengthened invariant -/

theorem nodup_getElem?_inj {α : Type} {l : List α} (h : l.Nodup) {p q : Nat} {x : α}
    (hp : l[p]? = some x) (hq : l[q]? = some x) : p = q := by
  rcases List.getElem?_eq_some_iff.1 hp with ⟨hp', hpe⟩
  rcases List.getElem?_eq_some_iff.1 hq with ⟨hq', hqe⟩
  exact (h.getElem_inj_iff).1 (hpe.trans hqe.symm)

theorem GoodId.contains_iff {s : IdState} (h : GoodId s) (i : Nat) :
    containsA s.id_to_index i = true ↔ i ∈ s.active_ids := by
  constructor
  · intro hc
    unfold containsA at hc
    cases hli : lookupA s.id_to_index i with
    | none => rw [hli] at hc; simp at hc
    | some p =>
      exact List.getElem?_mem (h.2.2.2 (i, p) (mem_of_lookupA hli)).1
  · intro hm
    unfold containsA
    rw [(h.2.2.1 i hm).2]
    rfl

theorem GoodId_empty : GoodId IdState.empty := by decide

theorem GoodId_addId {s : IdState} (h : GoodId s) (e : Ent) : GoodId (addId s e) := by
  by_cases hc : containsA s.id_to_index e.id
  · simpa [addId, hc] using h
  · have hnm : e.id ∉ s.active_ids := fun hmem => hc ((h.contains_iff e.id).2 hmem)
    have han := h.1
    have hkn := h.2.1
    have hfwd := h.2.2.1
    have hconv := h.2.2.2
    simp only [addId, hc, Bool.false_eq_true, if_false]
    refine ⟨?_, ?_, ?_, ?_⟩
    · refine List.nodup_append.2 ⟨han, List.nodup_singleton _, ?_⟩
      intro a ha hb
      rw [List.mem_singleton] at hb
      subst hb
      exact hnm ha
    · exact keysA_insertA_nodup _ (by simpa using hkn)
    · intro i hi
      rcases List.mem_append.1 hi with hiA | hiNew
      · have hne : i ≠ e.id := fun hh => hnm (hh ▸ hiA)
        refine ⟨?_, ?_⟩
        · rw [tableGet_store, if_neg hne]
          exact (hfwd i hiA).1
        · rw [lookupA_insertA_ne _ _ hne, (hfwd i hiA).2,
            List.indexOf_append_of_mem hiA]
      · have hie : i = e.id := List.mem_singleton.1 hiNew
        subst hie
        refine ⟨?_, ?_⟩
        · rw [tableGet_store, if_pos rfl]
          rfl
        · rw [lookupA_insertA_self, List.indexOf_append_of_not_mem hnm,
            List.indexOf_cons_self]
          rfl
    · intro q hq
      rcases mem_insertA hq with hqnew | hqold
      · subst hqnew
        refine ⟨?_, ?_⟩
        · rw [List.getElem?_append_right (Nat.le_refl _)]
          simp
        · rw [tableGet_store, if_pos rfl]
          rfl
      · have hold := hconv q hqold
        have hlt : q.2 < s.active_ids.length := (List.getElem?_eq_some_iff.1 hold.1).1
        have hne : q.1 ≠ e.id := by
          intro hh
          exact hnm (hh ▸ List.getElem?_mem hold.1)
        refine ⟨?_, ?_⟩
        · rw [List.getElem?_append_left hlt]
          exact hold.1
        · rw [tableGet_store, if_neg hne]
          exact hold.2

theorem rebuildStep_eq_addId {s : IdState} {e : Ent}
    (h : containsA s.id_to_index e.id = false) : rebuildStep s e = addId s e := by
  simp [rebuildStep, addId, h]

theorem addId_active_of_not_contains {s : IdState} {e : Ent}
    (h : containsA s.id_to_index e.id = false) :
    (addId s e).active_ids = s.active_ids ++ [e.id] := by
  simp [addId, h]

theorem GoodId_foldl_rebuild {es : List Ent} : ∀ {s : IdState}, GoodId s →
    (es.map Ent.id).Nodup → (∀ e ∈ es, e.id ∉ s.active_ids) →
    GoodId (es.foldl rebuildStep s) := by
  induction es with
  | nil => intro s h _ _; simpa
  | cons e t ih =>
    intro s h hnd hdis
    have hc : containsA s.id_to_index e.id = false := by
      cases hcc : containsA s.id_to_index e.id
      · rfl
      · exact absurd ((h.contains_iff e.id).1 hcc)
          (hdis e (List.mem_cons_self e t))
    rw [List.foldl_cons, rebuildStep_eq_addId hc]
    refine ih (GoodId_addId h e) ((List.nodup_cons.1 (by simpa using hnd)).2) ?_
    intro e' he'
    rw [addId_active_of_not_contains hc]
    intro hmem
    rcases List.mem_append.1 hmem with hmA | hmNew
    · exact hdis e' (List.mem_cons_of_mem _ he') hmA
    · have : e'.id = e.id := List.mem_singleton.1 hmNew
      have hnotin : e.id ∉ (t.map Ent.id) := (List.nodup_cons.1 (by simpa using hnd)).1
      exact hnotin (this ▸ List.mem_map_of_mem Ent.id he')

theorem GoodId_updateId (s : IdState) (es : List Ent)
    (h : (es.map Ent.id).Nodup) : GoodId (updateId s es) :=
  GoodId_foldl_rebuild GoodId_empty h (by simp [IdState.empty])

theorem GoodId_clearId (s : IdState) : GoodId (clearId s) := GoodId_empty

theorem GoodId_removeId {s : IdState} (hG : GoodId s) (e : Ent) :
    GoodId (removeId s e) := by
  have han := hG.1
  have hkn := hG.2.1
  have hfwd := hG.2.2.1
  have hconv := hG.2.2.2
  cases hl : lookupA s.id_to_index e.id with
  | none =>
    have hsame : removeId s e = s := by simp [removeId, hl]
    rw [hsame]; exact hG
  | some idx =>
    have hmem_idx : s.active_ids[idx]? = some e.id :=
      (hconv _ (mem_of_lookupA hl)).1
    have hidx : idx < s.active_ids.length := (List.getElem?_eq_some_iff.1 hmem_idx).1
    have hlastlt : s.active_ids.length - 1 < s.active_ids.length := by omega
    have hback : s.active_ids[s.active_ids.length - 1]? =
        some (s.active_ids.getD (s.active_ids.length - 1) 0) := by
      rw [List.getD_eq_getElem?_getD, List.getElem?_eq_getElem hlastlt]
      rfl
    have hBmem : s.active_ids.getD (s.active_ids.length - 1) 0 ∈ s.active_ids :=
      List.getElem?_mem hback
    have hBid_iff : s.active_ids.getD (s.active_ids.length - 1) 0 = e.id ↔
        idx = s.active_ids.length - 1 := by
      constructor
      · intro hbe
        exact nodup_getElem?_inj han hmem_idx (hbe ▸ hback)
      · intro hil
        rw [hil] at hmem_idx
        exact Option.some.inj (hback.symm.trans hmem_idx)
    have hA' := removeId_active s e hl
    have hT' := removeId_table s e hl
    have hM' := removeId_map s e hl
    have hA'get : ∀ p : Nat,
        ((s.active_ids.set idx (s.active_ids.getD (s.active_ids.length - 1) 0)).dropLast)[p]? =
          if p < s.active_ids.length - 1 then
            (if idx = p then some (s.active_ids.getD (s.active_ids.length - 1) 0)
             else s.active_ids[p]?)
          else none := by
      intro p
      rw [List.getElem?_dropLast, List.length_set]
      by_cases hp : p < s.active_ids.length - 1
      · rw [if_pos hp, if_pos hp, List.getElem?_set, if_pos hidx]
      · rw [if_neg hp, if_neg hp]
    have hnodupA' :
        ((s.active_ids.set idx (s.active_ids.getD (s.active_ids.length - 1) 0)).dropLast).Nodup := by
      by_cases hil : idx = s.active_ids.length - 1
      · have hset : s.active_ids.set idx (s.active_ids.getD (s.active_ids.length - 1) 0) =
            s.active_ids := by
          rw [hil]
          exact set_getD_self s.active_ids (s.active_ids.length - 1) 0
        rw [hset]
        exact han.sublist (List.dropLast_sublist s.active_ids)
      · have hlt : idx < s.active_ids.length - 1 := by omega
        rw [dropLast_set _ _ hlt]
        refine nodup_set_of_not_mem (han.sublist (List.dropLast_sublist s.active_ids)) ?_ idx
        intro hBin
        rcases List.mem_iff_getElem?.1 hBin with ⟨p, hp⟩
        have hplt : p < s.active_ids.length - 1 := by
          have h1 := (List.getElem?_eq_some_iff.1 hp).1
          rwa [List.length_dropLast] at h1
        rw [List.getElem?_dropLast, if_pos hplt] at hp
        have := nodup_getElem?_inj han hp hback
        omega
    have hcontainsB :
        containsA s.id_to_index (s.active_ids.getD (s.active_ids.length - 1) 0) = true := by
      unfold containsA
      rw [(hfwd _ hBmem).2]
      rfl
    have hknI : (keysA (insertA s.id_to_index
        (s.active_ids.getD (s.active_ids.length - 1) 0) idx)).Nodup := by
      rw [keysA_insertA_of_contains idx hcontainsB]
      exact hkn
    have hknM' : (keysA (eraseA (insertA s.id_to_index
        (s.active_ids.getD (s.active_ids.length - 1) 0) idx) e.id)).Nodup :=
      keysA_eraseA_nodup _ hknI
    have hlook_id : lookupA (eraseA (insertA s.id_to_index
        (s.active_ids.getD (s.active_ids.length - 1) 0) idx) e.id) e.id = none :=
      lookupA_eraseA_self hknI e.id
    have hlook_ne : ∀ j, j ≠ e.id →
        lookupA (eraseA (insertA s.id_to_index
          (s.active_ids.getD (s.active_ids.length - 1) 0) idx) e.id) j =
        (if j = s.active_ids.getD (s.active_ids.length - 1) 0 then some idx
         else lookupA s.id_to_index j) := by
      intro j hj
      rw [lookupA_eraseA_ne _ hj]
      by_cases hjB : j = s.active_ids.getD (s.active_ids.length - 1) 0
      · rw [if_pos hjB, hjB, lookupA_insertA_self]
      · rw [if_neg hjB, lookupA_insertA_ne _ _ hjB]
    unfold GoodId InvId
    rw [hA', hT', hM']
    refine ⟨hnodupA', hknM', ?_, ?_⟩
    · -- forward direction on the new active list
      intro i hi
      rcases List.mem_iff_getElem?.1 hi with ⟨p, hp⟩
      have hplen : p < s.active_ids.length - 1 := by
        have h1 := (List.getElem?_eq_some_iff.1 hp).1
        rwa [List.length_dropLast, List.length_set] at h1
      have hp' := hp
      rw [hA'get p, if_pos hplen] at hp'
      by_cases hip : idx = p
      · rw [if_pos hip] at hp'
        have hiB : s.active_ids.getD (s.active_ids.length - 1) 0 = i :=
          Option.some.inj hp'
        have hBneid : s.active_ids.getD (s.active_ids.length - 1) 0 ≠ e.id := by
          intro hbe
          have := hBid_iff.1 hbe
          omega
        have hine : i ≠ e.id := fun hh => hBneid (hiB.trans hh)
        constructor
        · rw [tableGet_clear, if_neg hine]
          exact (hfwd i (hiB ▸ hBmem)).1
        · rw [hlook_ne i hine, if_pos hiB.symm,
            indexOf_eq_of_getElem? hnodupA' hp, hip]
      · rw [if_neg hip] at hp'
        have hiA : i ∈ s.active_ids := List.getElem?_mem hp'
        have hine : i ≠ e.id := by
          intro hh
          subst hh
          exact hip (nodup_getElem?_inj han hmem_idx hp')
        have hiB : i ≠ s.active_ids.getD (s.active_ids.length - 1) 0 := by
          intro hh
          have := nodup_getElem?_inj han (hh ▸ hp') hback
          omega
        constructor
        · rw [tableGet_clear, if_neg hine]
          exact (hfwd i hiA).1
        · rw [hlook_ne i hine, if_neg hiB, (hfwd i hiA).2,
            indexOf_eq_of_getElem? han hp', indexOf_eq_of_getElem? hnodupA' hp]
    · -- converse direction on the new position map
      intro q hq
      have hlq : lookupA (eraseA (insertA s.id_to_index
          (s.active_ids.getD (s.active_ids.length - 1) 0) idx) e.id) q.1 = some q.2 :=
        lookupA_of_mem hknM' hq
      have hq1ne : q.1 ≠ e.id := by
        intro hh
        rw [hh, hlook_id] at hlq
        exact Option.noConfusion hlq
      rw [hlook_ne q.1 hq1ne] at hlq
      by_cases hqB : q.1 = s.active_ids.getD (s.active_ids.length - 1) 0
      · rw [if_pos hqB] at hlq
        have hq2 : q.2 = idx := (Option.some.inj hlq).symm
        have hBneid : s.active_ids.getD (s.active_ids.length - 1) 0 ≠ e.id :=
          fun hh => hq1ne (hqB.trans hh)
        have hidxlt : idx < s.active_ids.length - 1 := by
          rcases Nat.lt_or_ge idx (s.active_ids.length - 1) with hcase | hcase
          · exact hcase
          · exact absurd (hBid_iff.2 (by omega)) hBneid
        constructor
        · rw [hq2, hA'get idx, if_pos hidxlt, if_pos rfl, hqB]
        · rw [tableGet_clear, if_neg hq1ne, hqB]
          exact (hfwd _ hBmem).1
      · rw [if_neg hqB] at hlq
        have hold := hconv q (mem_of_lookupA hlq)
        have hq2lt : q.2 < s.active_ids.length := (List.getElem?_eq_some_iff.1 hold.1).1
        have hq2neidx : q.2 ≠ idx := by
          intro hh
          exact hq1ne (Option.some.inj ((hh ▸ hold.1).symm.trans hmem_idx))
        have hq2nelast : q.2 ≠ s.active_ids.length - 1 := by
          intro hh
          exact hqB (Option.some.inj ((hh ▸ hold.1).symm.trans hback))
        constructor
        · rw [hA'get q.2, if_pos (by omega), if_neg (fun hh => hq2neidx hh.symm)]
          exact hold.1
        · rw [tableGet_clear, if_neg hq1ne]
          exact hold.2

theorem reachD_good : ∀ {s : IdState}, ReachD s → GoodId s := by
  intro s h
  induction h with
  | empty => exact GoodId_empty
  | update _ hnd _ => exact GoodId_updateId _ _ hnd
  | add _ ih => exact GoodId_addId ih _
  | remove _ ih => exact GoodId_removeId ih _
  | clear _ _ => exact GoodId_clearId _

/-- Facts holding in every reachable identifier-mode state, duplicate-carrying
snapshots included: the position map's keys are duplicate-free and every live
table slot's identifier is mapped. -/
def WeakId (s : IdState) : Prop :=
  (keysA s.id_to_index).Nodup ∧ LiveMapped s

theorem WeakId_empty : WeakId IdState.empty := by
  constructor
  · simp [IdState.empty, keysA]
  · intro i h
    simp [IdState.empty, tableGet] at h

theorem WeakId_rebuildStep {s : IdState} (h : WeakId s) (e : Ent) :
    WeakId (rebuildStep s e) := by
  constructor
  · exact keysA_insertA_nodup _ h.1
  · intro k hk
    simp only [rebuildStep] at hk ⊢
    rw [tableGet_store] at hk
    unfold containsA
    by_cases hke : k = e.id
    · subst hke; rw [lookupA_insertA_self]; rfl
    · rw [lookupA_insertA_ne _ _ hke]
      rw [if_neg hke] at hk
      exact h.2 k hk

theorem WeakId_foldl_rebuild (es : List Ent) :
    ∀ {s : IdState}, WeakId s → WeakId (es.foldl rebuildStep s) := by
  induction es with
  | nil => intro s h; simpa
  | cons e t ih =>
    intro s h
    rw [List.foldl_cons]
    exact ih (WeakId_rebuildStep h e)

theorem WeakId_updateId (s : IdState) (es : List Ent) : WeakId (updateId s es) :=
  WeakId_foldl_rebuild es WeakId_empty

theorem WeakId_addId {s : IdState} (h : WeakId s) (e : Ent) : WeakId (addId s e) := by
  by_cases hc : containsA s.id_to_index e.id
  · simpa [addId, hc] using h
  · rw [← rebuildStep_eq_addId (by simpa using hc)]
    exact WeakId_rebuildStep h e

theorem WeakId_removeId {s : IdState} (h : WeakId s) (e : Ent) :
    WeakId (removeId s e) := by
  cases hl : lookupA s.id_to_index e.id with
  | none => simpa [removeId, hl] using h
  | some idx =>
    have hT' := removeId_table s e hl
    have hM' := removeId_map s e hl
    constructor
    · rw [hM']
      exact keysA_eraseA_nodup _ (keysA_insertA_nodup _ h.1)
    · intro k hk
      rw [hT', tableGet_clear] at hk
      by_cases hke : k = e.id
      · rw [if_pos hke] at hk; simp at hk
      · rw [if_neg hke] at hk
        rw [hM']
        unfold containsA
        rw [lookupA_eraseA_ne _ hke]
        by_cases hkB : k = s.active_ids.getD (s.active_ids.length - 1) 0
        · rw [hkB, lookupA_insertA_self]; rfl
        · rw [lookupA_insertA_ne _ _ hkB]
          exact h.2 k hk

theorem reach_weak : ∀ {s : IdState}, Reach s → WeakId s := by
  intro s h
  induction h with
  | empty => exact WeakId_empty
  | update _ _ => exact WeakId_updateId _ _
  | add _ ih => exact WeakId_addId ih _
  | remove _ ih => exact WeakId_removeId ih _
  | clear _ _ => exact WeakId_empty

/-! ### ID-mode add/remove round trip -/

theorem set_append_self {α : Type} [DecidableEq α] (A : List α) (x : α) :
    (A ++ [x]).set A.length x = A ++ [x] := by
  have h : (A ++ [x]).getD A.length x = x := by
    rw [List.getD_eq_getElem?_getD, List.getElem?_append_right (Nat.le_refl _)]
    simp
  calc (A ++ [x]).set A.length x
      = (A ++ [x]).set A.length ((A ++ [x]).getD A.length x) := by rw [h]
    _ = A ++ [x] := set_getD_self _ _ _

theorem roundtrip_id {s : IdState} (hw : WeakId s) {e : Ent}
    (hnp : containsA s.id_to_index e.id = false) :
    sizeId (removeId (addId s e) e) = sizeId s ∧
    getAllId (removeId (addId s e) e) = getAllId s := by
  have hlooknone : lookupA s.id_to_index e.id = none :=
    lookupA_none_of_contains_false hnp
  have ha1 : (addId s e).active_ids = s.active_ids ++ [e.id] := by
    simp [addId, hnp]
  have ht1 : (addId s e).table = (growTable s.table e.id).set e.id (some e) := by
    simp [addId, hnp]
  have hm1 : (addId s e).id_to_index = insertA s.id_to_index e.id s.active_ids.length := by
    simp [addId, hnp]
  have hl : lookupA (addId s e).id_to_index e.id = some s.active_ids.length := by
    rw [hm1]; exact lookupA_insertA_self _ _ _
  have hgetlast : (addId s e).active_ids.getD ((addId s e).active_ids.length - 1) 0
      = e.id := by
    rw [ha1]
    have hlen : (s.active_ids ++ [e.id]).length - 1 = s.active_ids.length := by simp
    rw [hlen, List.getD_eq_getElem?_getD, List.getElem?_append_right (Nat.le_refl _)]
    simp
  have hA2 : (removeId (addId s e) e).active_ids = s.active_ids := by
    rw [removeId_active _ e hl, hgetlast, ha1, set_append_self, List.dropLast_concat]
  have hm2 : (removeId (addId s e) e).id_to_index = s.id_to_index := by
    rw [removeId_map _ e hl, hgetlast, hm1,
      insertA_of_lookup_none _ hlooknone, insertA_append_self hlooknone,
      eraseA_append_self hlooknone]
  have hlen1 : e.id < ((growTable s.table e.id).set e.id (some e)).length := by
    rw [List.length_set]; exact length_growTable_lt _ _
  have ht2 : (removeId (addId s e) e).table =
      ((growTable s.table e.id).set e.id (some e)).set e.id none := by
    rw [removeId_table _ e hl, ht1, if_pos hlen1]
  have htg : ∀ k, tableGet (removeId (addId s e) e).table k =
      if k = e.id then none else tableGet s.table k := by
    intro k
    rw [ht2]
    by_cases hk : k = e.id
    · subst hk
      rw [if_pos rfl, List.set_set, tableGet_set_self _ (length_growTable_lt _ _)]
    · rw [if_neg hk, tableGet_set_ne _ (Ne.symm hk), tableGet_set_ne _ (Ne.symm hk),
        tableGet_growTable]
  constructor
  · simp only [sizeId, hA2]
  · rw [getAllId_eq, getAllId_eq, hA2]
    apply List.filterMap_congr
    intro i hi
    rw [htg i]
    by_cases hk : i = e.id
    · subst hk
      rw [if_pos rfl]
      cases hts : tableGet s.table e.id with
      | none => rfl
      | some x =>
        have hcontr := hw.2 e.id (by rw [hts]; rfl)
        rw [hnp] at hcontr
        exact Bool.noConfusion hcontr
    · rw [if_neg hk]

/-! ### Grouping-mode bucket lemmas -/

theorem removeSwap_of_not_mem {l : List Ent} {e : Ent} (h : e ∉ l) :
    removeSwap l e = l := by
  unfold removeSwap
  have hf : l.findIdx? (fun x => x == e) = none := by
    rw [List.findIdx?_eq_none_iff]
    intro x hx
    exact beq_eq_false_iff_ne.2 (fun hh => h (hh ▸ hx))
  rw [hf]

theorem removeSwap_append_self {b : List Ent} {e : Ent} (h : e ∉ b) :
    removeSwap (b ++ [e]) e = b := by
  unfold removeSwap
  have hb : b.findIdx? (fun x => x == e) = none := by
    rw [List.findIdx?_eq_none_iff]
    intro x hx
    exact beq_eq_false_iff_ne.2 (fun hh => h (hh ▸ hx))
  have hf : (b ++ [e]).findIdx? (fun x => x == e) = some b.length := by
    rw [List.findIdx?_append, hb, Option.none_or]
    simp
  rw [hf]
  show ((b ++ [e]).set b.length ((b ++ [e]).getD ((b ++ [e]).length - 1) e)).dropLast = b
  have hgd : (b ++ [e]).getD ((b ++ [e]).length - 1) e = e := by
    have hlen : (b ++ [e]).length - 1 = b.length := by simp
    rw [hlen, List.getD_eq_getElem?_getD, List.getElem?_append_right (Nat.le_refl _)]
    simp
  rw [hgd, set_append_self, List.dropLast_concat]

theorem length_pushBucket (bs : List (List Ent)) (p : Nat) (e : Ent) :
    (pushBucket bs p e).length = bs.length := by
  unfold pushBucket
  exact List.length_set bs p _

theorem getD_pushBucket_self {bs : List (List Ent)} {p : Nat} (hp : p < bs.length)
    (e : Ent) : (pushBucket bs p e).getD p [] = bs.getD p [] ++ [e] := by
  unfold pushBucket
  rw [List.getD_eq_getElem?_getD, List.getElem?_set_self hp]
  rfl

theorem getD_pushBucket_ne (bs : List (List Ent)) {p q : Nat} (hpq : p ≠ q) (e : Ent) :
    (pushBucket bs p e).getD q [] = bs.getD q [] := by
  unfold pushBucket
  rw [List.getD_eq_getElem?_getD, List.getElem?_set_ne hpq, ← List.getD_eq_getElem?_getD]

theorem pushBucket_out_of_range {bs : List (List Ent)} {p : Nat} (hp : bs.length ≤ p)
    (e : Ent) : pushBucket bs p e = bs := by
  unfold pushBucket
  exact List.set_eq_of_length_le hp

theorem not_mem_getD_of_not_mem_flatten {bs : List (List Ent)} {e : Ent}
    (h : e ∉ bs.flatten) (p : Nat) : e ∉ bs.getD p [] := by
  intro hmem
  by_cases hp : p < bs.length
  · apply h
    rw [List.mem_flatten]
    refine ⟨bs.getD p [], ?_, hmem⟩
    rw [List.getD_eq_getElem?_getD, List.getElem?_eq_getElem hp]
    exact List.getElem?_mem (List.getElem?_eq_getElem hp)
  · rw [List.getD_eq_getElem?_getD, List.getElem?_eq_none (by omega)] at hmem
    simp at hmem

/-- Pushing an entity into a bucket it is absent from, then swap-removing it
from that bucket, restores the bucket list exactly. -/
theorem bucket_roundtrip (bs : List (List Ent)) (p : Nat) (e : Ent)
    (h : e ∉ bs.getD p []) :
    (pushBucket bs p e).set p (removeSwap ((pushBucket bs p e).getD p []) e) = bs := by
  by_cases hp : p < bs.length
  · rw [getD_pushBucket_self hp e, removeSwap_append_self h]
    unfold pushBucket
    rw [List.set_set]
    exact set_getD_self bs p []
  · have hp' : bs.length ≤ p := by omega
    rw [pushBucket_out_of_range hp' e]
    have hgd : bs.getD p [] = [] := by
      rw [List.getD_eq_getElem?_getD, List.getElem?_eq_none hp']
      rfl
    rw [hgd, removeSwap_of_not_mem (by simp)]
    exact List.set_eq_of_length_le hp'

theorem roundtrip_group {κ : Type} [DecidableEq κ] (f : Ent → κ) (s : GState κ)
    (e : Ent) (h : e ∉ getAllG s) :
    sizeG (removeG f (addG f s e) e) = sizeG s ∧
    getAllG (removeG f (addG f s e) e) = getAllG s := by
  cases hlook : lookupA s.category_to_index (f e) with
  | some p =>
    have hc : containsA s.category_to_index (f e) = true := by
      unfold containsA; rw [hlook]; rfl
    have hm1 : (addG f s e).category_to_index = s.category_to_index := by
      simp [addG, hc]
    have hb1 : (addG f s e).buckets = pushBucket s.buckets p e := by
      simp [addG, hc, hlook]
    have hlook2 : lookupA (addG f s e).category_to_index (f e) = some p := by
      rw [hm1]; exact hlook
    have hb3 : (removeG f (addG f s e) e).buckets = s.buckets := by
      simp only [removeG, hlook2, hb1]
      exact bucket_roundtrip s.buckets p e (not_mem_getD_of_not_mem_flatten h p)
    constructor
    · unfold sizeG; rw [hb3]
    · unfold getAllG; rw [hb3]
  | none =>
    have hc : containsA s.category_to_index (f e) = false := by
      unfold containsA; rw [hlook]; rfl
    have hm1 : (addG f s e).category_to_index =
        insertA s.category_to_index (f e) s.categories.length := by
      simp [addG, hc]
    have hb1 : (addG f s e).buckets =
        pushBucket (s.buckets ++ [[]]) s.categories.length e := by
      simp [addG, hc, lookupA_insertA_self]
    have hlook2 : lookupA (addG f s e).category_to_index (f e) =
        some s.categories.length := by
      rw [hm1]; exact lookupA_insertA_self _ _ _
    have hnm : e ∉ (s.buckets ++ [[]]).getD s.categories.length [] := by
      apply not_mem_getD_of_not_mem_flatten
      rw [List.flatten_append]
      simpa [getAllG] using h
    have hb2 : (removeG f (addG f s e) e).buckets = s.buckets ++ [[]] := by
      simp only [removeG, hlook2, hb1]
      exact bucket_roundtrip (s.buckets ++ [[]]) s.categories.length e hnm
    constructor
    · unfold sizeG; rw [hb2]; simp
    · unfold getAllG; rw [hb2]; simp

/-! ### Characterization of the grouping-mode rebuild -/

theorem discover_aux {κ : Type} [DecidableEq κ] (f : Ent → κ) :
    ∀ (es : List Ent) (acc : List κ × List (κ × Nat)),
      acc.1.Nodup →
      (keysA acc.2).Nodup →
      (∀ c, lookupA acc.2 c = if c ∈ acc.1 then some (acc.1.indexOf c) else none) →
      (es.foldl (discStep f) acc).1.Nodup ∧
      (keysA (es.foldl (discStep f) acc).2).Nodup ∧
      (∀ c, lookupA (es.foldl (discStep f) acc).2 c =
        if c ∈ (es.foldl (discStep f) acc).1
        then some ((es.foldl (discStep f) acc).1.indexOf c) else none) ∧
      (∀ c, c ∈ (es.foldl (discStep f) acc).1 ↔ c ∈ acc.1 ∨ c ∈ es.map f) := by
  intro es
  induction es with
  | nil =>
    intro acc h1 hk h2
    refine ⟨h1, hk, h2, ?_⟩
    simp
  | cons e t ih =>
    intro acc h1 hk h2
    rw [List.foldl_cons]
    by_cases hc : containsA acc.2 (f e)
    · have hstep : discStep f acc e = acc := by simp [discStep, hc]
      rw [hstep]
      have hfe : f e ∈ acc.1 := by
        by_contra hfn
        have hlk := h2 (f e)
        rw [if_neg hfn] at hlk
        unfold containsA at hc
        rw [hlk] at hc
        simp at hc
      obtain ⟨r1, rk, r2, r3⟩ := ih acc h1 hk h2
      refine ⟨r1, rk, r2, ?_⟩
      intro c
      rw [r3 c]
      simp only [List.map_cons, List.mem_cons]
      constructor
      · intro hcc
        rcases hcc with hcc | hcc
        · exact Or.inl hcc
        · exact Or.inr (Or.inr hcc)
      · intro hcc
        rcases hcc with hcc | hcc | hcc
        · exact Or.inl hcc
        · exact Or.inl (hcc ▸ hfe)
        · exact Or.inr hcc
    · have hfn : f e ∉ acc.1 := by
        intro hmem
        have hlk := h2 (f e)
        rw [if_pos hmem] at hlk
        unfold containsA at hc
        rw [hlk] at hc
        simp at hc
      have hstep : discStep f acc e =
          (acc.1 ++ [f e], insertA acc.2 (f e) acc.1.length) := by
        simp [discStep, hc]
      rw [hstep]
      have h1' : (acc.1 ++ [f e]).Nodup := by
        refine List.nodup_append.2 ⟨h1, List.nodup_singleton _, ?_⟩
        intro a ha hb
        rw [List.mem_singleton] at hb
        subst hb
        exact hfn ha
      have hk' : (keysA (insertA acc.2 (f e) acc.1.length)).Nodup :=
        keysA_insertA_nodup _ hk
      have h2' : ∀ c, lookupA (insertA acc.2 (f e) acc.1.length) c =
          if c ∈ acc.1 ++ [f e] then some ((acc.1 ++ [f e]).indexOf c) else none := by
        intro c
        by_cases hce : c = f e
        · subst hce
          rw [lookupA_insertA_self,
            if_pos (List.mem_append.2 (Or.inr (List.mem_singleton_self _))),
            List.indexOf_append_of_not_mem hfn, List.indexOf_cons_self]
          rfl
        · rw [lookupA_insertA_ne _ _ hce, h2 c]
          by_cases hcm : c ∈ acc.1
          · rw [if_pos hcm, if_pos (List.mem_append.2 (Or.inl hcm)),
              List.indexOf_append_of_mem hcm]
          · have hcm' : c ∉ acc.1 ++ [f e] := by
              intro hmem
              rcases List.mem_append.1 hmem with hm | hm
              · exact hcm hm
              · exact hce (List.mem_singleton.1 hm)
            rw [if_neg hcm, if_neg hcm']
      obtain ⟨r1, rk, r2, r3⟩ :=
        ih (acc.1 ++ [f e], insertA acc.2 (f e) acc.1.length) h1' hk' h2'
      refine ⟨r1, rk, r2, ?_⟩
      intro c
      rw [r3 c]
      simp only [List.mem_append, List.mem_singleton, List.map_cons, List.mem_cons]
      tauto

theorem discover_spec {κ : Type} [DecidableEq κ] (f : Ent → κ) (es : List Ent) :
    (discover f es).1.Nodup ∧
    (keysA (discover f es).2).Nodup ∧
    (∀ c, lookupA (discover f es).2 c =
      if c ∈ (discover f es).1 then some ((discover f es).1.indexOf c) else none) ∧
    (∀ c, c ∈ (discover f es).1 ↔ c ∈ es.map f) := by
  unfold discover
  have h := discover_aux f es ([], []) (by simp) (by simp [keysA])
    (by intro c; simp [lookupA])
  refine ⟨h.1, h.2.1, h.2.2.1, ?_⟩
  intro c
  rw [h.2.2.2 c]
  simp

theorem length_foldl_fill {κ : Type} [DecidableEq κ] (f : Ent → κ)
    (m : List (κ × Nat)) (es : List Ent) :
    ∀ bs, (es.foldl (fillStep f m) bs).length = bs.length := by
  induction es with
  | nil => intro bs; rfl
  | cons e t ih =>
    intro bs
    rw [List.foldl_cons, ih, fillStep, length_pushBucket]

theorem getD_foldl_fill {κ : Type} [DecidableEq κ] (f : Ent → κ)
    (m : List (κ × Nat)) (es : List Ent) :
    ∀ (bs : List (List Ent)) (p : Nat),
      (∀ e ∈ es, (lookupA m (f e)).getD 0 < bs.length) →
      (es.foldl (fillStep f m) bs).getD p [] =
        bs.getD p [] ++ es.filter (fun e => (lookupA m (f e)).getD 0 == p) := by
  induction es with
  | nil => intro bs p _; simp
  | cons e t ih =>
    intro bs p hlt
    rw [List.foldl_cons]
    have hlen : (fillStep f m bs e).length = bs.length := by
      rw [fillStep, length_pushBucket]
    rw [ih (fillStep f m bs e) p (by
      intro e' he'
      rw [hlen]
      exact hlt e' (List.mem_cons_of_mem _ he'))]
    by_cases hep : (lookupA m (f e)).getD 0 = p
    · rw [List.filter_cons_of_pos (by simpa using hep)]
      unfold fillStep
      rw [hep, getD_pushBucket_self (hep ▸ hlt e (List.mem_cons_self e t)) e]
      simp
    · rw [List.filter_cons_of_neg (by simpa using hep)]
      unfold fillStep
      rw [getD_pushBucket_ne _ hep _]

theorem count_filter_eq (x : Ent) (p : Ent → Bool) (es : List Ent) :
    List.count x (es.filter p) = if p x then List.count x es else 0 := by
  by_cases hp : p x
  · rw [if_pos hp, List.count_filter hp]
  · rw [if_neg hp]
    refine List.count_eq_zero.2 ?_
    intro hm
    rw [List.mem_filter] at hm
    exact hp hm.2

theorem sum_ite_mem {κ : Type} [DecidableEq κ] (cats : List κ) (hn : cats.Nodup)
    (y : κ) (n : Nat) :
    (cats.map (fun c => if y = c then n else 0)).sum = if y ∈ cats then n else 0 := by
  induction cats with
  | nil => simp
  | cons c t ih =>
    simp only [List.map_cons, List.sum_cons]
    by_cases hyc : y = c
    · subst hyc
      rw [if_pos rfl, ih (List.nodup_cons.1 hn).2,
        if_neg (List.nodup_cons.1 hn).1, if_pos (List.mem_cons_self _ _)]
      omega
    · rw [if_neg hyc, ih (List.nodup_cons.1 hn).2, Nat.zero_add]
      by_cases hyt : y ∈ t
      · rw [if_pos hyt, if_pos (List.mem_cons_of_mem _ hyt)]
      · have hny : y ∉ c :: t := by
          intro hm
          rcases List.mem_cons.1 hm with hm | hm
          · exact hyc hm
          · exact hyt hm
        rw [if_neg hyt, if_neg hny]

theorem flatten_filter_perm {κ : Type} [DecidableEq κ] (f : Ent → κ)
    (cats : List κ) (hn : cats.Nodup) (es : List Ent)
    (hcov : ∀ e ∈ es, f e ∈ cats) :
    ((cats.map (fun c => es.filter (fun e => f e == c))).flatten).Perm es := by
  rw [List.perm_iff_count]
  intro x
  rw [List.count_flatten, List.map_map]
  have hfun : (List.count x ∘ fun c => es.filter (fun e => f e == c)) =
      fun c => if f x = c then List.count x es else 0 := by
    funext c
    simp only [Function.comp_apply]
    rw [count_filter_eq]
    by_cases hfc : f x = c
    · rw [if_pos (by simpa using hfc), if_pos hfc]
    · rw [if_neg (by simpa using hfc), if_neg hfc]
  rw [hfun, sum_ite_mem cats hn (f x) (List.count x es)]
  by_cases hx : x ∈ es
  · rw [if_pos (hcov x hx)]
  · rw [List.count_eq_zero.2 hx]
    by_cases hfx : f x ∈ cats
    · rw [if_pos hfx]
    · rw [if_neg hfx]

theorem updateG_categories {κ : Type} [DecidableEq κ] (f : Ent → κ)
    (s0 : GState κ) (es : List Ent) :
    (updateG f s0 es).categories = (discover f es).1 := rfl

theorem updateG_index {κ : Type} [DecidableEq κ] (f : Ent → κ)
    (s0 : GState κ) (es : List Ent) :
    (updateG f s0 es).category_to_index = (discover f es).2 := rfl

theorem updateG_buckets_length {κ : Type} [DecidableEq κ] (f : Ent → κ)
    (s0 : GState κ) (es : List Ent) :
    (updateG f s0 es).buckets.length = (discover f es).1.length := by
  show (es.foldl (fillStep f (discover f es).2)
      (List.replicate (discover f es).1.length [])).length = _
  rw [length_foldl_fill, List.length_replicate]

theorem updateG_bucket {κ : Type} [DecidableEq κ] (f : Ent → κ) (s0 : GState κ)
    (es : List Ent) {p : Nat} {c : κ}
    (hc : (updateG f s0 es).categories[p]? = some c) :
    (updateG f s0 es).buckets.getD p [] = es.filter (fun e => f e == c) := by
  obtain ⟨hnd, hknd, hlk, hmem⟩ := discover_spec f es
  rw [updateG_categories] at hc
  have hplen : p < (discover f es).1.length := (List.getElem?_eq_some_iff.1 hc).1
  have hcind : List.indexOf c (discover f es).1 = p := indexOf_eq_of_getElem? hnd hc
  show (es.foldl (fillStep f (discover f es).2)
      (List.replicate (discover f es).1.length [])).getD p [] = _
  rw [getD_foldl_fill f _ es _ p (by
    intro e he
    rw [List.length_replicate]
    have hfe : f e ∈ (discover f es).1 := (hmem (f e)).2 (List.mem_map_of_mem f he)
    rw [hlk (f e), if_pos hfe]
    exact List.indexOf_lt_length.2 hfe)]
  rw [List.getD_eq_getElem?_getD, List.getElem?_replicate, if_pos hplen]
  simp only [Option.getD_some, List.nil_append]
  apply List.filter_congr
  intro e he
  have hfe : f e ∈ (discover f es).1 := (hmem (f e)).2 (List.mem_map_of_mem f he)
  rw [hlk (f e), if_pos hfe]
  simp only [Option.getD_some]
  by_cases hfc : f e = c
  · subst hfc
    rw [hcind]
    simp
  · have hne : List.indexOf (f e) (discover f es).1 ≠ p := by
      intro hh
      apply hfc
      have h1 : (discover f es).1[p]? = some (f e) := by
        rw [← hh, List.getElem?_eq_getElem (List.indexOf_lt_length.2 hfe)]
        simp [List.getElem_indexOf]
      exact Option.some.inj (h1.symm.trans hc)
    simp [beq_eq_false_iff_ne.2 hne, beq_eq_false_iff_ne.2 hfc]

theorem updateG_buckets_eq {κ : Type} [DecidableEq κ] (f : Ent → κ)
    (s0 : GState κ) (es : List Ent) :
    (updateG f s0 es).buckets =
      (updateG f s0 es).categories.map (fun c => es.filter (fun e => f e == c)) := by
  apply List.ext_getElem?
  intro n
  rw [List.getElem?_map]
  by_cases hn : n < (updateG f s0 es).categories.length
  · have hnb : n < (updateG f s0 es).buckets.length := by
      rw [updateG_buckets_length]
      rw [updateG_categories] at hn
      exact hn
    have hc : (updateG f s0 es).categories[n]? =
        some ((updateG f s0 es).categories[n]) := List.getElem?_eq_getElem hn
    rw [hc, List.getElem?_eq_getElem hnb, Option.map_some']
    have hbd : (updateG f s0 es).buckets[n] = (updateG f s0 es).buckets.getD n [] := by
      rw [List.getD_eq_getElem?_getD, List.getElem?_eq_getElem hnb]
      rfl
    rw [hbd, updateG_bucket f s0 es hc]
  · have h1 : (updateG f s0 es).categories[n]? = none :=
      List.getElem?_eq_none (by omega)
    have h2 : (updateG f s0 es).buckets[n]? = none := by
      refine List.getElem?_eq_none ?_
      rw [updateG_buckets_length]
      rw [updateG_categories] at hn
      omega
    rw [h1, h2]
    rfl

theorem updateG_forEach_map {κ : Type} [DecidableEq κ] (f : Ent → κ)
    (s0 : GState κ) (es : List Ent) :
    (updateG f s0 es).categories.map (fun c => forEachCat (updateG f s0 es) c) =
      (updateG f s0 es).buckets := by
  obtain ⟨hnd, hknd, hlk, hmem⟩ := discover_spec f es
  apply List.ext_getElem?
  intro n
  rw [List.getElem?_map]
  by_cases hn : n < (updateG f s0 es).categories.length
  · have hnb : n < (updateG f s0 es).buckets.length := by
      rw [updateG_buckets_length]
      exact hn
    rw [List.getElem?_eq_getElem hn, List.getElem?_eq_getElem hnb, Option.map_some']
    have hcn : (updateG f s0 es).categories[n] ∈ (discover f es).1 :=
      List.getElem?_mem (List.getElem?_eq_getElem hn)
    have hind : List.indexOf ((updateG f s0 es).categories[n]) (discover f es).1 = n :=
      List.indexOf_getElem hnd n hn
    unfold forEachCat
    rw [updateG_index, hlk _, if_pos hcn, hind]
    show some ((updateG f s0 es).buckets.getD n []) =
      some ((updateG f s0 es).buckets[n])
    rw [List.getD_eq_getElem?_getD, List.getElem?_eq_getElem hnb]
    rfl
  · have h1 : (updateG f s0 es).categories[n]? = none :=
      List.getElem?_eq_none (by omega)
    have h2 : (updateG f s0 es).buckets[n]? = none := by
      refine List.getElem?_eq_none ?_
      rw [updateG_buckets_length]
      rw [updateG_categories] at hn
      omega
    rw [h1, h2]
    rfl

/-! ### Grouping-mode structural invariant preservation -/

theorem InvG_empty {κ : Type} [DecidableEq κ] : InvG (GState.empty κ) := by
  refine ⟨rfl, List.nodup_nil, ?_, ?_⟩
  · intro q hq; simp [GState.empty] at hq
  · intro c hc; simp [GState.empty] at hc

theorem InvG_updateG {κ : Type} [DecidableEq κ] (f : Ent → κ) (s : GState κ)
    (es : List Ent) : InvG (updateG f s es) := by
  obtain ⟨hnd, hknd, hlk, hmem⟩ := discover_spec f es
  refine ⟨?_, ?_, ?_, ?_⟩
  · rw [updateG_buckets_length]; rfl
  · exact hnd
  · intro q hq
    rw [updateG_index] at hq
    rw [updateG_categories]
    have hlq : lookupA (discover f es).2 q.1 = some q.2 := lookupA_of_mem hknd hq
    rw [hlk q.1] at hlq
    by_cases hm : q.1 ∈ (discover f es).1
    · rw [if_pos hm] at hlq
      have hq2 : q.2 = List.indexOf q.1 (discover f es).1 := (Option.some.inj hlq).symm
      rw [hq2, List.getElem?_eq_getElem (List.indexOf_lt_length.2 hm)]
      simp [List.getElem_indexOf]
    · rw [if_neg hm] at hlq
      exact Option.noConfusion hlq
  · intro c hc
    rw [updateG_index, updateG_categories, hlk c]
    rw [updateG_categories] at hc
    rw [if_pos hc]

theorem InvG_addG {κ : Type} [DecidableEq κ] (f : Ent → κ) {s : GState κ}
    (h : InvG s) (e : Ent) : InvG (addG f s e) := by
  obtain ⟨hlen, hnd, hconv, hfwd⟩ := h
  by_cases hc : containsA s.category_to_index (f e)
  · have hm1 : (addG f s e).category_to_index = s.category_to_index := by
      simp [addG, hc]
    have hc1 : (addG f s e).categories = s.categories := by
      simp [addG, hc]
    have hb1 : (addG f s e).buckets.length = s.buckets.length := by
      have hb : (addG f s e).buckets =
          pushBucket s.buckets ((lookupA s.category_to_index (f e)).getD 0) e := by
        simp [addG, hc]
      rw [hb, length_pushBucket]
    refine ⟨?_, ?_, ?_, ?_⟩
    · rw [hc1, hb1]; exact hlen
    · rw [hc1]; exact hnd
    · intro q hq
      rw [hm1] at hq
      rw [hc1]
      exact hconv q hq
    · intro c hcc
      rw [hc1] at hcc
      rw [hm1, hc1]
      exact hfwd c hcc
  · have hfn : f e ∉ s.categories := by
      intro hmem
      have hlq := hfwd (f e) hmem
      unfold containsA at hc
      rw [hlq] at hc
      simp at hc
    have hm1 : (addG f s e).category_to_index =
        insertA s.category_to_index (f e) s.categories.length := by
      simp [addG, hc]
    have hc1 : (addG f s e).categories = s.categories ++ [f e] := by
      simp [addG, hc]
    have hb1 : (addG f s e).buckets.length = s.buckets.length + 1 := by
      have hb : (addG f s e).buckets =
          pushBucket (s.buckets ++ [[]]) s.categories.length e := by
        simp [addG, hc, lookupA_insertA_self]
      rw [hb, length_pushBucket]
      simp
    refine ⟨?_, ?_, ?_, ?_⟩
    · rw [hc1, hb1]
      simp [hlen]
    · rw [hc1]
      refine List.nodup_append.2 ⟨hnd, List.nodup_singleton _, ?_⟩
      intro a ha hb
      rw [List.mem_singleton] at hb
      subst hb
      exact hfn ha
    · intro q hq
      rw [hm1] at hq
      rw [hc1]
      rcases mem_insertA hq with hqn | hqo
      · subst hqn
        rw [List.getElem?_append_right (Nat.le_refl _)]
        simp
      · have hold := hconv q hqo
        have hlt : q.2 < s.categories.length := (List.getElem?_eq_some_iff.1 hold).1
        rw [List.getElem?_append_left hlt]
        exact hold
    · intro c hcc
      rw [hc1] at hcc
      rw [hm1, hc1]
      rcases List.mem_append.1 hcc with hcm | hcm
      · have hne : c ≠ f e := fun hh => hfn (hh ▸ hcm)
        rw [lookupA_insertA_ne _ _ hne, hfwd c hcm, List.indexOf_append_of_mem hcm]
      · have hce : c = f e := List.mem_singleton.1 hcm
        subst hce
        rw [lookupA_insertA_self, List.indexOf_append_of_not_mem hfn,
          List.indexOf_cons_self]
        rfl

theorem removeG_components {κ : Type} [DecidableEq κ] (f : Ent → κ)
    (s : GState κ) (e : Ent) :
    (removeG f s e).categories = s.categories ∧
    (removeG f s e).category_to_index = s.category_to_index ∧
    (removeG f s e).buckets.length = s.buckets.length := by
  cases hl : lookupA s.category_to_index (f e) with
  | none => simp [removeG, hl]
  | some p =>
    refine ⟨by simp [removeG, hl], by simp [removeG, hl], ?_⟩
    simp [removeG, hl]

theorem InvG_removeG {κ : Type} [DecidableEq κ] (f : Ent → κ) {s : GState κ}
    (h : InvG s) (e : Ent) : InvG (removeG f s e) := by
  obtain ⟨hc1, hm1, hb1⟩ := removeG_components f s e
  obtain ⟨hlen, hnd, hconv, hfwd⟩ := h
  refine ⟨?_, ?_, ?_, ?_⟩
  · rw [hc1, hb1]; exact hlen
  · rw [hc1]; exact hnd
  · intro q hq
    rw [hm1] at hq
    rw [hc1]
    exact hconv q hq
  · intro c hcc
    rw [hc1] at hcc
    rw [hm1, hc1]
    exact hfwd c hcc

theorem InvG_clearG {κ : Type} [DecidableEq κ] (s : GState κ) : InvG (clearG s) :=
  InvG_empty

/-! ### Table-order iteration versus snapshot order -/

theorem filterMap_id_eq_range (t : List (Option Ent)) :
    t.filterMap (fun o => o) =
      (List.range t.length).filterMap (fun i => tableGet t i) := by
  induction t using List.reverseRecOn with
  | nil => rfl
  | append_singleton t o ih =>
    have hlen : (t ++ [o]).length = t.length + 1 := by simp
    rw [List.filterMap_append, hlen, List.range_succ, List.filterMap_append, ih]
    congr 1
    · apply List.filterMap_congr
      intro i hi
      rw [List.mem_range] at hi
      unfold tableGet
      rw [List.getD_eq_getElem?_getD, List.getD_eq_getElem?_getD,
        List.getElem?_append_left hi]
    · have hget : tableGet (t ++ [o]) t.length = o := by
        unfold tableGet
        rw [List.getD_eq_getElem?_getD, List.getElem?_append_right (Nat.le_refl _)]
        simp
      cases o with
      | none => simp [hget]
      | some x => simp [hget]

theorem filterMap_eq_filterMap_filter {α β : Type} (f : α → Option β) (l : List α) :
    l.filterMap f = (l.filter (fun a => (f a).isSome)).filterMap f := by
  induction l with
  | nil => rfl
  | cons a t ih =>
    cases hf : f a with
    | none =>
      rw [List.filterMap_cons, hf, List.filter_cons_of_neg (by simp [hf]), ih]
    | some b =>
      rw [List.filterMap_cons, hf, List.filter_cons_of_pos (by simp [hf]),
        List.filterMap_cons, hf, ih]

theorem perm_forEachAll_getAll {s : IdState} (hInv : InvId s)
    (hnd : s.active_ids.Nodup) (hla : LiveA s) :
    (forEachAllId s).Perm (getAllId s) := by
  rw [getAllId_eq]
  unfold forEachAllId
  rw [filterMap_id_eq_range, filterMap_eq_filterMap_filter]
  refine List.Perm.filterMap _ ?_
  refine (List.perm_ext_iff_of_nodup ((List.nodup_range _).filter _) hnd).2 ?_
  intro i
  rw [List.mem_filter, List.mem_range]
  constructor
  · intro hmem
    exact hla i (List.mem_range.2 hmem.1) (by simpa using hmem.2)
  · intro hmem
    have hs := (hInv.1 i hmem).1
    exact ⟨tableGet_isSome_lt hs, by simpa using hs⟩

/-! ### Claim theorems -/

/-- C2: identifier-mode rebuild with duplicate identifiers is last-write-wins
in the table — after `update(S)` every table slot holds the last snapshot
entity carrying that identifier — while the active-id list keeps one entry per
occurrence, so `size()` equals the length of `S` including duplicates and
strictly exceeds the number of distinct identifiers. -/
theorem C2_rebuild_duplicates (s0 : IdState) (es : List Ent) (i j : Nat)
    (hi : i < es.length) (hj : j < es.length) (hij : i ≠ j)
    (hdup : (es.get ⟨i, hi⟩).id = (es.get ⟨j, hj⟩).id) :
    (updateId s0 es).active_ids = es.map Ent.id ∧
    sizeId (updateId s0 es) = es.length ∧
    (es.map Ent.id).dedup.length < es.length ∧
    (∀ k, tableGet (updateId s0 es).table k = lastWithId es k) := by
  have hact : (updateId s0 es).active_ids = es.map Ent.id := by
    show (es.foldl rebuildStep IdState.empty).active_ids = _
    rw [foldl_rebuild_active]
    rfl
  have hsize : sizeId (updateId s0 es) = es.length := by
    rw [sizeId, hact, List.length_map]
  have hnN : ¬ (es.map Ent.id).Nodup := by
    intro hN
    apply hij
    have hlen_i : i < (es.map Ent.id).length := by rw [List.length_map]; exact hi
    have hlen_j : j < (es.map Ent.id).length := by rw [List.length_map]; exact hj
    have h1 : (es.map Ent.id)[i] = (es.map Ent.id)[j] := by
      rw [List.getElem_map, List.getElem_map]
      exact hdup
    exact hN.getElem_inj_iff.1 h1
  have hdd : (es.map Ent.id).dedup.length < es.length := by
    have := length_dedup_lt_of_not_nodup hnN
    rwa [List.length_map] at this
  refine ⟨hact, hsize, hdd, ?_⟩
  intro k
  show tableGet (es.foldl rebuildStep IdState.empty).table k = _
  rw [foldl_rebuild_tableGet]
  have hbase : tableGet IdState.empty.table k = none := rfl
  rw [hbase, Option.or_none]

/-- C2 witness at the duplicate-identifier snapshot `[⟨1,0⟩, ⟨2,0⟩]`. -/
theorem C2_rebuild_duplicates_witness :
    (updateId IdState.empty [⟨1, 0⟩, ⟨2, 0⟩]).active_ids = [0, 0] ∧
    sizeId (updateId IdState.empty [⟨1, 0⟩, ⟨2, 0⟩]) = 2 ∧
    tableGet (updateId IdState.empty [⟨1, 0⟩, ⟨2, 0⟩]).table 0 = some ⟨2, 0⟩ := by
  have h := C2_rebuild_duplicates IdState.empty [⟨1, 0⟩, ⟨2, 0⟩] 0 1
    (by decide) (by decide) (by decide) (by decide)
  exact ⟨h.1.trans (by decide), h.2.1, (h.2.2.2 0).trans (by decide)⟩

/-- C6: silent no-ops — in identifier mode, `add` of an already-present
identifier returns the state unchanged; in either mode `remove` of an absent
entity (identifier unmapped; category unknown; or the reference missing from
its category's bucket) returns the state unchanged. -/
theorem C6_silent_noops :
    (∀ (s : IdState) (e : Ent), containsA s.id_to_index e.id = true →
      addId s e = s) ∧
    (∀ (s : IdState) (e : Ent), lookupA s.id_to_index e.id = none →
      removeId s e = s) ∧
    (∀ (κ : Type) [DecidableEq κ] (f : Ent → κ) (s : GState κ) (e : Ent),
      lookupA s.category_to_index (f e) = none → removeG f s e = s) ∧
    (∀ (κ : Type) [DecidableEq κ] (f : Ent → κ) (s : GState κ) (e : Ent) (p : Nat),
      lookupA s.category_to_index (f e) = some p → e ∉ s.buckets.getD p [] →
      removeG f s e = s) := by
  refine ⟨?_, ?_, ?_, ?_⟩
  · intro s e h
    simp [addId, h]
  · intro s e h
    simp [removeId, h]
  · intro κ _ f s e h
    simp [removeG, h]
  · intro κ _ f s e p h hmem
    simp only [removeG, h]
    rw [removeSwap_of_not_mem hmem, set_getD_self]

/-- C6 witness: each of the four no-op cases at a concrete state. -/
theorem C6_silent_noops_witness :
    addId (addId IdState.empty ⟨1, 1⟩) ⟨9, 1⟩ = addId IdState.empty ⟨1, 1⟩ ∧
    removeId (addId IdState.empty ⟨1, 1⟩) ⟨5, 7⟩ = addId IdState.empty ⟨1, 1⟩ ∧
    removeG (fun e => e.id % 2) (addG (fun e => e.id % 2) (GState.empty Nat) ⟨1, 1⟩)
      ⟨2, 2⟩ = addG (fun e => e.id % 2) (GState.empty Nat) ⟨1, 1⟩ ∧
    removeG (fun e => e.id % 2) (addG (fun e => e.id % 2) (GState.empty Nat) ⟨1, 1⟩)
      ⟨2, 3⟩ = addG (fun e => e.id % 2) (GState.empty Nat) ⟨1, 1⟩ := by
  refine ⟨?_, ?_, ?_, ?_⟩
  · exact C6_silent_noops.1 _ ⟨9, 1⟩ (by decide)
  · exact C6_silent_noops.2.1 _ ⟨5, 7⟩ (by decide)
  · exact C6_silent_noops.2.2.1 Nat (fun e => e.id % 2) _ ⟨2, 2⟩ (by decide)
  · exact C6_silent_noops.2.2.2 Nat (fun e => e.id % 2) _ ⟨2, 3⟩ 0 (by decide) (by decide)

/-- C7: after an identifier-mode rebuild from a snapshot with pairwise-distinct
identifiers, `size()` equals the number of distinct identifiers, which equals
the snapshot length. -/
theorem C7_rebuild_size (s0 : IdState) (es : List Ent)
    (h : (es.map Ent.id).Nodup) :
    sizeId (updateId s0 es) = (es.map Ent.id).dedup.length ∧
    sizeId (updateId s0 es) = es.length := by
  have hact : (updateId s0 es).active_ids = es.map Ent.id := by
    show (es.foldl rebuildStep IdState.empty).active_ids = _
    rw [foldl_rebuild_active]
    rfl
  have hlen : sizeId (updateId s0 es) = es.length := by
    rw [sizeId, hact, List.length_map]
  refine ⟨?_, hlen⟩
  rw [List.Nodup.dedup h, hlen, List.length_map]

/-- C7 witness at a three-entity snapshot with distinct identifiers. -/
theorem C7_rebuild_size_witness :
    sizeId (updateId IdState.empty [⟨1, 4⟩, ⟨2, 0⟩, ⟨3, 9⟩]) = 3 := by
  exact (C7_rebuild_size IdState.empty [⟨1, 4⟩, ⟨2, 0⟩, ⟨3, 9⟩] (by decide)).2

/-- C9: identifier-mode `get_all` guards every table access, so each returned
reference comes from an in-bounds live slot of an active identifier, the
result is never longer than `size()`, and it is strictly shorter in the state
reached by a duplicate-identifier rebuild followed by a remove. -/
theorem C9_getAll_guard :
    (∀ s : IdState, (getAllId s).length ≤ sizeId s) ∧
    (∀ (s : IdState) (x : Ent), x ∈ getAllId s →
      ∃ i ∈ s.active_ids, i < s.table.length ∧ tableGet s.table i = some x) ∧
    ((getAllId (removeId (updateId IdState.empty [⟨1, 0⟩, ⟨2, 0⟩]) ⟨1, 0⟩)).length <
      sizeId (removeId (updateId IdState.empty [⟨1, 0⟩, ⟨2, 0⟩]) ⟨1, 0⟩)) := by
  refine ⟨?_, ?_, by decide⟩
  · intro s
    exact List.length_filterMap_le _ _
  · intro s x hx
    unfold getAllId at hx
    rw [List.mem_filterMap] at hx
    obtain ⟨i, hi, hcond⟩ := hx
    by_cases hil : i < s.table.length
    · rw [if_pos hil] at hcond
      exact ⟨i, hi, hil, hcond⟩
    · rw [if_neg hil] at hcond
      exact Option.noConfusion hcond

/-- C9 witness: the guarded characterization applied at a concrete state. -/
theorem C9_getAll_guard_witness :
    ∃ i ∈ (addId IdState.empty ⟨7, 2⟩).active_ids,
      i < (addId IdState.empty ⟨7, 2⟩).table.length ∧
      tableGet (addId IdState.empty ⟨7, 2⟩).table i = some ⟨7, 2⟩ :=
  C9_getAll_guard.2.1 (addId IdState.empty ⟨7, 2⟩) ⟨7, 2⟩ (by decide)

/-- C10: the grouping-mode structural invariant — equally long category and
bucket lists, duplicate-free categories, and a position map holding exactly
the listed categories with the category at position `p` mapped to `p` — holds
in the empty state and is preserved by update, add, remove and clear; moreover
`remove` never deletes a category, its map entry, or a bucket. -/
theorem C10_grouping_invariant :
    (∀ (κ : Type) [DecidableEq κ], InvG (GState.empty κ)) ∧
    (∀ (κ : Type) [DecidableEq κ] (f : Ent → κ) (s : GState κ) (es : List Ent),
      InvG (updateG f s es)) ∧
    (∀ (κ : Type) [DecidableEq κ] (f : Ent → κ) (s : GState κ) (e : Ent),
      InvG s → InvG (addG f s e)) ∧
    (∀ (κ : Type) [DecidableEq κ] (f : Ent → κ) (s : GState κ) (e : Ent),
      InvG s → InvG (removeG f s e)) ∧
    (∀ (κ : Type) [DecidableEq κ] (s : GState κ), InvG (clearG s)) ∧
    (∀ (κ : Type) [DecidableEq κ] (f : Ent → κ) (s : GState κ) (e : Ent),
      (removeG f s e).categories = s.categories ∧
      (removeG f s e).category_to_index = s.category_to_index ∧
      (removeG f s e).buckets.length = s.buckets.length) := by
  refine ⟨?_, ?_, ?_, ?_, ?_, ?_⟩
  · intro κ _
    exact InvG_empty
  · intro κ _ f s es
    exact InvG_updateG f s es
  · intro κ _ f s e h
    exact InvG_addG f h e
  · intro κ _ f s e h
    exact InvG_removeG f h e
  · intro κ _ s
    exact InvG_clearG s
  · intro κ _ f s e
    exact removeG_components f s e

/-- C10 witness: preservation applied at a concrete grouping state. -/
theorem C10_grouping_invariant_witness :
    InvG (addG (fun e => e.id % 2) (GState.empty Nat) ⟨1, 1⟩) ∧
    InvG (removeG (fun e => e.id % 2)
      (addG (fun e => e.id % 2) (GState.empty Nat) ⟨1, 1⟩) ⟨1, 1⟩) := by
  refine ⟨?_, ?_⟩
  · exact C10_grouping_invariant.2.2.1 Nat (fun e => e.id % 2)
      (GState.empty Nat) ⟨1, 1⟩ (by decide)
  · exact C10_grouping_invariant.2.2.2.1 Nat (fun e => e.id % 2)
      (addG (fun e => e.id % 2) (GState.empty Nat) ⟨1, 1⟩) ⟨1, 1⟩ (by decide)

/-- C1 counterexample: rebuilding from the snapshot `[⟨1,0⟩, ⟨2,0⟩]` (two
entities sharing identifier 0) and then removing identifier 0 leaves 0 in
`active_ids` with an empty table slot and no position-map entry, so the
claimed invariant is not preserved by every mutation from the empty state. -/
theorem C1_dup_update_breaks_invariant :
    ¬ InvId (removeId (updateId IdState.empty [⟨1, 0⟩, ⟨2, 0⟩]) ⟨1, 0⟩) := by
  decide

/-- C1 (amended): the identifier-mode invariant — every active identifier has
a live table slot and is mapped to its index in `active_ids`, and conversely
every mapped identifier sits in `active_ids` at its mapped index with a live
slot — holds in every state reachable from the empty state by
update/add/remove/clear, provided every `update` snapshot has
pairwise-distinct identifiers. -/
theorem C1_invariant_reachable (s : IdState) (h : ReachD s) : InvId s :=
  (reachD_good h).2.2

/-- C1 witness: the invariant holds after a rebuild and an add from empty. -/
theorem C1_invariant_reachable_witness :
    InvId (addId (updateId IdState.empty [⟨1, 4⟩, ⟨2, 0⟩]) ⟨5, 3⟩) :=
  C1_invariant_reachable _
    (ReachD.add (ReachD.update ReachD.empty (by decide)))

/-- C3: category partition — after a grouping-mode rebuild, the bucket at any
position holds exactly the snapshot entities (in snapshot order, once per
occurrence) whose category is the category stored at that position, the
concatenation of all buckets (`get_all`) is a permutation of the snapshot, the
category list is duplicate-free, and visiting `for_each` over every distinct
category enumerates the snapshot exactly once per occurrence. -/
theorem C3_category_partition {κ : Type} [DecidableEq κ] (f : Ent → κ)
    (s0 : GState κ) (es : List Ent) :
    (∀ p c, (updateG f s0 es).categories[p]? = some c →
      (updateG f s0 es).buckets.getD p [] = es.filter (fun e => f e == c)) ∧
    (getAllG (updateG f s0 es)).Perm es ∧
    (updateG f s0 es).categories.Nodup ∧
    (((updateG f s0 es).categories.map
        (fun c => forEachCat (updateG f s0 es) c)).flatten).Perm es := by
  obtain ⟨hnd, hknd, hlk, hmem⟩ := discover_spec f es
  have hperm : ((updateG f s0 es).buckets.flatten).Perm es := by
    rw [updateG_buckets_eq]
    exact flatten_filter_perm f _ hnd es
      (fun e he => (hmem (f e)).2 (List.mem_map_of_mem f he))
  refine ⟨fun p c hc => updateG_bucket f s0 es hc, hperm, hnd, ?_⟩
  rw [updateG_forEach_map]
  exact hperm

/-- C3 witness at a concrete snapshot and the parity categorizer. -/
theorem C3_category_partition_witness :
    (updateG (fun e => e.id % 2) (GState.empty Nat)
        [⟨1, 1⟩, ⟨2, 2⟩, ⟨3, 3⟩]).buckets.getD 0 [] = [⟨1, 1⟩, ⟨3, 3⟩] ∧
    (getAllG (updateG (fun e => e.id % 2) (GState.empty Nat)
        [⟨1, 1⟩, ⟨2, 2⟩, ⟨3, 3⟩])).Perm [⟨1, 1⟩, ⟨2, 2⟩, ⟨3, 3⟩] := by
  have h := C3_category_partition (fun e => e.id % 2) (GState.empty Nat)
    [⟨1, 1⟩, ⟨2, 2⟩, ⟨3, 3⟩]
  exact ⟨(h.1 0 1 (by decide)).trans (by decide), h.2.1⟩

/-- C4: add/remove round trip — in identifier mode, for every reachable state
and entity whose identifier is absent, and in grouping mode, for every state
and entity whose reference is absent from the cache, `add(e); remove(e)`
restores `size()` and `get_all()` (as a set of references). -/
theorem C4_add_remove_roundtrip :
    (∀ (s : IdState) (e : Ent), Reach s → containsA s.id_to_index e.id = false →
      sizeId (removeId (addId s e) e) = sizeId s ∧
      (∀ x, x ∈ getAllId (removeId (addId s e) e) ↔ x ∈ getAllId s)) ∧
    (∀ (κ : Type) [DecidableEq κ] (f : Ent → κ) (s : GState κ) (e : Ent),
      e ∉ getAllG s →
      sizeG (removeG f (addG f s e) e) = sizeG s ∧
      (∀ x, x ∈ getAllG (removeG f (addG f s e) e) ↔ x ∈ getAllG s)) := by
  constructor
  · intro s e hr hnp
    obtain ⟨h1, h2⟩ := roundtrip_id (reach_weak hr) hnp
    exact ⟨h1, fun x => by rw [h2]⟩
  · intro κ _ f s e hnp
    obtain ⟨h1, h2⟩ := roundtrip_group f s e hnp
    exact ⟨h1, fun x => by rw [h2]⟩

/-- C4 witness: the round trip at concrete states in both modes. -/
theorem C4_add_remove_roundtrip_witness :
    sizeId (removeId (addId IdState.empty ⟨7, 2⟩) ⟨7, 2⟩) = 0 ∧
    (⟨7, 2⟩ ∈ getAllId (removeId (addId IdState.empty ⟨7, 2⟩) ⟨7, 2⟩) ↔
      (⟨7, 2⟩ : Ent) ∈ getAllId IdState.empty) ∧
    sizeG (removeG (fun e => e.id % 2)
      (addG (fun e => e.id % 2) (GState.empty Nat) ⟨7, 2⟩) ⟨7, 2⟩) = 0 := by
  have hid := C4_add_remove_roundtrip.1 IdState.empty ⟨7, 2⟩ Reach.empty (by decide)
  have hg := C4_add_remove_roundtrip.2 Nat (fun e => e.id % 2)
    (GState.empty Nat) ⟨7, 2⟩ (by decide)
  exact ⟨hid.1.trans (by decide), hid.2 _, hg.1.trans (by decide)⟩

/-- C8 counterexample: the state with one live table slot but an empty active
list and map satisfies the claimed invariant, yet `for_each_all` visits the
slot while `get_all` returns nothing, so the two sequences fail to be
permutations of each other even though the state invariant holds. -/
theorem C8_invariant_not_sufficient :
    InvId ⟨[some ⟨1, 0⟩], [], []⟩ ∧
    ¬ (forEachAllId ⟨[some ⟨1, 0⟩], [], []⟩).Perm
        (getAllId ⟨[some ⟨1, 0⟩], [], []⟩) := by
  decide

/-- C8 (amended): `for_each_all` visits exactly the non-empty table slots once
each in increasing table-index order, `get_all` returns the guarded table
reads in active-id order, and the two sequences are permutations of each other
when the claimed invariant holds, `active_ids` is duplicate-free, and every
live table slot's index is active; they need not be equal as sequences. -/
theorem C8_iteration_order :
    (∀ s : IdState, forEachAllId s =
      (List.range s.table.length).filterMap (fun i => tableGet s.table i)) ∧
    (∀ s : IdState, getAllId s =
      s.active_ids.filterMap (fun i => tableGet s.table i)) ∧
    (∀ s : IdState, InvId s → s.active_ids.Nodup → LiveA s →
      (forEachAllId s).Perm (getAllId s)) ∧
    (forEachAllId (updateId IdState.empty [⟨1, 1⟩, ⟨2, 0⟩]) ≠
        getAllId (updateId IdState.empty [⟨1, 1⟩, ⟨2, 0⟩]) ∧
      (forEachAllId (updateId IdState.empty [⟨1, 1⟩, ⟨2, 0⟩])).Perm
        (getAllId (updateId IdState.empty [⟨1, 1⟩, ⟨2, 0⟩]))) := by
  refine ⟨?_, ?_, ?_, by decide⟩
  · intro s
    exact filterMap_id_eq_range s.table
  · intro s
    exact getAllId_eq s
  · intro s h1 h2 h3
    exact perm_forEachAll_getAll h1 h2 h3

/-- C8 witness: the permutation applied at a concrete invariant-satisfying
state. -/
theorem C8_iteration_order_witness :
    (forEachAllId (updateId IdState.empty [⟨3, 0⟩, ⟨4, 1⟩])).Perm
      (getAllId (updateId IdState.empty [⟨3, 0⟩, ⟨4, 1⟩])) :=
  C8_iteration_order.2.2.1 (updateId IdState.empty [⟨3, 0⟩, ⟨4, 1⟩])
    (by decide) (by decide) (by decide)

/-- Swap-removal postcondition is extracted here; it is combined with the
concrete example in the C5 claim theorem. -/
theorem removeId_postcondition {s : IdState} {e : Ent} {idx : Nat} (hG : GoodId s)
    (hl : lookupA s.id_to_index e.id = some idx) :
    sizeId (removeId s e) + 1 = sizeId s ∧
    (removeId s e).active_ids =
      (s.active_ids.set idx (s.active_ids.getD (s.active_ids.length - 1) 0)).dropLast ∧
    lookupA (removeId s e).id_to_index e.id = none ∧
    (idx < s.active_ids.length - 1 →
      lookupA (removeId s e).id_to_index
          (s.active_ids.getD (s.active_ids.length - 1) 0) = some idx ∧
      (removeId s e).active_ids[idx]? =
        some (s.active_ids.getD (s.active_ids.length - 1) 0)) ∧
    tableGet (removeId s e).table e.id = none := by
  have han := hG.1
  have hfwd := hG.2.2.1
  have hconv := hG.2.2.2
  have hmem_idx : s.active_ids[idx]? = some e.id := (hconv _ (mem_of_lookupA hl)).1
  have hidx : idx < s.active_ids.length := (List.getElem?_eq_some_iff.1 hmem_idx).1
  have hlastlt : s.active_ids.length - 1 < s.active_ids.length := by omega
  have hback : s.active_ids[s.active_ids.length - 1]? =
      some (s.active_ids.getD (s.active_ids.length - 1) 0) := by
    rw [List.getD_eq_getElem?_getD, List.getElem?_eq_getElem hlastlt]
    rfl
  have hBmem : s.active_ids.getD (s.active_ids.length - 1) 0 ∈ s.active_ids :=
    List.getElem?_mem hback
  have hcontainsB : containsA s.id_to_index
      (s.active_ids.getD (s.active_ids.length - 1) 0) = true := by
    unfold containsA
    rw [(hfwd _ hBmem).2]
    rfl
  have hknI : (keysA (insertA s.id_to_index
      (s.active_ids.getD (s.active_ids.length - 1) 0) idx)).Nodup := by
    rw [keysA_insertA_of_contains idx hcontainsB]
    exact hG.2.1
  refine ⟨?_, removeId_active s e hl, ?_, ?_, ?_⟩
  · rw [sizeId, sizeId, removeId_active s e hl, List.length_dropLast, List.length_set]
    omega
  · rw [removeId_map s e hl]
    exact lookupA_eraseA_self hknI e.id
  · intro hlt
    have hBne : s.active_ids.getD (s.active_ids.length - 1) 0 ≠ e.id := by
      intro hbe
      have := nodup_getElem?_inj han hmem_idx (hbe ▸ hback)
      omega
    constructor
    · rw [removeId_map s e hl, lookupA_eraseA_ne _ hBne, lookupA_insertA_self]
    · rw [removeId_active s e hl, List.getElem?_dropLast, List.length_set,
        if_pos hlt, List.getElem?_set_self hidx]
  · rw [removeId_table s e hl, tableGet_clear, if_pos rfl]

/-- The concrete add/add/add/remove example behind C5, with symbolic entities
whose identifiers are pairwise distinct. -/
theorem add3_remove_example (e1 e2 e3 : Ent) (h12 : e1.id ≠ e2.id)
    (h13 : e1.id ≠ e3.id) (h23 : e2.id ≠ e3.id) :
    (∀ x, x ∈ getAllId (removeId (addId (addId (addId IdState.empty e1) e2) e3) e2)
      ↔ x = e1 ∨ x = e3) ∧
    e2 ∈ getAllId
      (addId (removeId (addId (addId (addId IdState.empty e1) e2) e3) e2) e2) := by
  set s1 := addId IdState.empty e1 with hs1
  set s2 := addId s1 e2 with hs2
  set s3 := addId s2 e3 with hs3
  have hc1 : containsA ([] : List (Nat × Nat)) e1.id = false := rfl
  have h1a : s1.active_ids = [e1.id] := by
    rw [hs1]
    simp [addId, hc1, IdState.empty]
  have h1m : s1.id_to_index = [(e1.id, 0)] := by
    rw [hs1]
    simp [addId, hc1, IdState.empty, insertA]
  have h1t : ∀ k, tableGet s1.table k = if k = e1.id then some e1 else none := by
    intro k
    have ht : s1.table = (growTable IdState.empty.table e1.id).set e1.id (some e1) := by
      rw [hs1]
      simp [addId, hc1, IdState.empty]
    rw [ht, tableGet_store]
    by_cases hk : k = e1.id
    · rw [if_pos hk, if_pos hk]
    · rw [if_neg hk, if_neg hk]
      rfl
  have hc2 : containsA s1.id_to_index e2.id = false := by
    unfold containsA
    rw [h1m]
    simp [lookupA, h12]
  have h2a : s2.active_ids = [e1.id, e2.id] := by
    rw [hs2, addId_active_of_not_contains hc2, h1a]
    rfl
  have h2m : s2.id_to_index = [(e1.id, 0), (e2.id, 1)] := by
    have hm : s2.id_to_index = insertA s1.id_to_index e2.id s1.active_ids.length := by
      rw [hs2]
      simp [addId, hc2]
    rw [hm, h1m, h1a]
    simp [insertA, h12]
  have h2t : ∀ k, tableGet s2.table k =
      if k = e2.id then some e2 else if k = e1.id then some e1 else none := by
    intro k
    have ht : s2.table = (growTable s1.table e2.id).set e2.id (some e2) := by
      rw [hs2]
      simp [addId, hc2]
    rw [ht, tableGet_store, h1t k]
  have hc3 : containsA s2.id_to_index e3.id = false := by
    unfold containsA
    rw [h2m]
    simp [lookupA, h13, h23]
  have h3a : s3.active_ids = [e1.id, e2.id, e3.id] := by
    rw [hs3, addId_active_of_not_contains hc3, h2a]
    rfl
  have h3m : s3.id_to_index = [(e1.id, 0), (e2.id, 1), (e3.id, 2)] := by
    have hm : s3.id_to_index = insertA s2.id_to_index e3.id s2.active_ids.length := by
      rw [hs3]
      simp [addId, hc3]
    rw [hm, h2m, h2a]
    simp [insertA, h13, h23]
  have h3t : ∀ k, tableGet s3.table k =
      if k = e3.id then some e3
      else if k = e2.id then some e2
      else if k = e1.id then some e1 else none := by
    intro k
    have ht : s3.table = (growTable s2.table e3.id).set e3.id (some e3) := by
      rw [hs3]
      simp [addId, hc3]
    rw [ht, tableGet_store, h2t k]
  have hl2 : lookupA s3.id_to_index e2.id = some 1 := by
    rw [h3m]
    simp [lookupA, h12]
  have hback3 : s3.active_ids.getD (s3.active_ids.length - 1) 0 = e3.id := by
    rw [h3a]
    rfl
  have hra : (removeId s3 e2).active_ids = [e1.id, e3.id] := by
    rw [removeId_active s3 e2 hl2, h3a]
    rfl
  have hrm : (removeId s3 e2).id_to_index = [(e1.id, 0), (e3.id, 1)] := by
    rw [removeId_map s3 e2 hl2, hback3, h3m]
    simp [insertA, eraseA, h12, h13, h23]
  have hrt : ∀ k, tableGet (removeId s3 e2).table k =
      if k = e2.id then none else tableGet s3.table k := by
    intro k
    rw [removeId_table s3 e2 hl2, tableGet_clear]
  have htg1 : tableGet (removeId s3 e2).table e1.id = some e1 := by
    rw [hrt, if_neg h12, h3t, if_neg h13, if_neg h12, if_pos rfl]
  have htg3 : tableGet (removeId s3 e2).table e3.id = some e3 := by
    rw [hrt, if_neg (Ne.symm h23), h3t, if_pos rfl]
  have hga : getAllId (removeId s3 e2) = [e1, e3] := by
    rw [getAllId_eq, hra]
    simp [List.filterMap_cons, htg1, htg3]
  have hc4 : containsA (removeId s3 e2).id_to_index e2.id = false := by
    unfold containsA
    rw [hrm]
    simp [lookupA, h12, Ne.symm h23]
  have h4a : (addId (removeId s3 e2) e2).active_ids = [e1.id, e3.id, e2.id] := by
    rw [addId_active_of_not_contains hc4, hra]
    rfl
  have h4t : tableGet (addId (removeId s3 e2) e2).table e2.id = some e2 := by
    have ht : (addId (removeId s3 e2) e2).table =
        (growTable (removeId s3 e2).table e2.id).set e2.id (some e2) := by
      simp [addId, hc4]
    rw [ht, tableGet_store, if_pos rfl]
  constructor
  · intro x
    rw [hga]
    simp
  · rw [getAllId_eq, h4a]
    refine List.mem_filterMap.2 ⟨e2.id, ?_, h4t⟩
    simp

/-- C5: identifier-mode swap removal — in every duplicate-free
invariant-satisfying state where the entity's identifier is mapped at `idx`,
`remove` moves the identifier at the last active position into position `idx`,
shrinks the active list by one, repoints the moved identifier to `idx`, erases
the removed identifier from the position map, and clears the removed
identifier's table slot; and concretely, after `add(e1), add(e2), add(e3),
remove(e2)` from empty, `get_all()` is exactly `{e1, e3}` and re-adding `e2`
makes it retrievable again. -/
theorem C5_swap_removal :
    (∀ (s : IdState) (e : Ent) (idx : Nat), GoodId s →
      lookupA s.id_to_index e.id = some idx →
      sizeId (removeId s e) + 1 = sizeId s ∧
      (removeId s e).active_ids =
        (s.active_ids.set idx (s.active_ids.getD (s.active_ids.length - 1) 0)).dropLast ∧
      lookupA (removeId s e).id_to_index e.id = none ∧
      (idx < s.active_ids.length - 1 →
        lookupA (removeId s e).id_to_index
            (s.active_ids.getD (s.active_ids.length - 1) 0) = some idx ∧
        (removeId s e).active_ids[idx]? =
          some (s.active_ids.getD (s.active_ids.length - 1) 0)) ∧
      tableGet (removeId s e).table e.id = none) ∧
    (∀ e1 e2 e3 : Ent, e1.id ≠ e2.id → e1.id ≠ e3.id → e2.id ≠ e3.id →
      (∀ x, x ∈ getAllId
          (removeId (addId (addId (addId IdState.empty e1) e2) e3) e2)
        ↔ x = e1 ∨ x = e3) ∧
      e2 ∈ getAllId (addId
        (removeId (addId (addId (addId IdState.empty e1) e2) e3) e2) e2)) := by
  constructor
  · intro s e idx hG hl
    exact removeId_postcondition hG hl
  · intro e1 e2 e3 h12 h13 h23
    exact add3_remove_example e1 e2 e3 h12 h13 h23

/-- C5 witness at a concrete state and concrete entities. -/
theorem C5_swap_removal_witness :
    (sizeId (removeId (updateId IdState.empty [⟨1, 1⟩, ⟨2, 2⟩]) ⟨1, 1⟩) + 1 =
      sizeId (updateId IdState.empty [⟨1, 1⟩, ⟨2, 2⟩]) ∧
      tableGet (removeId (updateId IdState.empty [⟨1, 1⟩, ⟨2, 2⟩]) ⟨1, 1⟩).table 1 =
        none) ∧
    ((⟨1, 1⟩ : Ent) ∈ getAllId (removeId (addId (addId (addId IdState.empty ⟨1, 1⟩)
        ⟨2, 2⟩) ⟨3, 3⟩) ⟨2, 2⟩) ↔
      (⟨1, 1⟩ : Ent) = ⟨1, 1⟩ ∨ (⟨1, 1⟩ : Ent) = ⟨3, 3⟩) := by
  have h1 := C5_swap_removal.1 (updateId IdState.empty [⟨1, 1⟩, ⟨2, 2⟩]) ⟨1, 1⟩ 0
    (by decide) (by decide)
  have h2 := C5_swap_removal.2 ⟨1, 1⟩ ⟨2, 2⟩ ⟨3, 3⟩ (by decide) (by decide) (by decide)
  exact ⟨⟨h1.1, h1.2.2.2.2⟩, h2.1 ⟨1, 1⟩⟩
